import Mathlib

/-!
# pttweb: cache generators and rich-content dispatch

A shallow embedding of `cached_ops.go` (package `main`) and of
`richcontent/url_based_finder.go`.

* Byte slices are lists of byte values (`Byte := Nat`; the code only compares
  bytes with the newline `10` and copies them).
* Go `int` is modelled by `Int`; where an arithmetic expression of the source
  can leave the 64-bit range it is wrapped with `wrap64`.
* A run-time panic (index or slice bounds) is `none` in an `Option` result.
* Collaborators that live in other packages (`pttbbs`, `article`, the URL
  finder) are function parameters; the calls made to them are recorded, in
  order, in a list of `Call`s returned next to the result.
-/

namespace Pttweb

/-- A byte of a Go `[]byte`. -/
abbrev Byte := Nat

/-! ## Article generation (`cached_ops.go`, lines 79-153) -/

/-- Constant `HeadSize = 100 * 1024`. -/
def HeadSize : Int := 100 * 1024

/-- Constant `TailSize = 50 * 1024`. -/
def TailSize : Int := 50 * 1024

/-- The three selection modes `pttbbs.SelectPart`, `pttbbs.SelectHead`,
`pttbbs.SelectTail` used by the generator. -/
inductive SelectMethod where
  | SelectPart
  | SelectHead
  | SelectTail
  deriving DecidableEq, Repr

/-- The fields of `pttbbs.ArticlePart` read by `generateArticle`. -/
structure ArticlePart where
  Content : List Byte
  FileSize : Int
  Length : Int
  deriving DecidableEq, Repr

/-- What one `article.Renderer` run hands back: the buffer of `Render`, and the
values of `ParsedTitle()` and `PreviewContent()` read after it. -/
structure Rendered where
  Bytes : List Byte
  ParsedTitle : List Byte
  PreviewContent : List Byte
  deriving DecidableEq, Repr

/-- The fields of `Article` written by `generateArticle`; `new(Article)` is the
all-zero value `Article.zero`. -/
structure Article where
  ParsedTitle : List Byte
  PreviewContent : List Byte
  ContentHtml : List Byte
  ContentTailHtml : List Byte
  IsPartial : Bool
  IsTruncated : Bool
  IsValid : Bool
  deriving DecidableEq, Repr

/-- The value of `new(Article)`. -/
def Article.zero : Article :=
  { ParsedTitle := [], PreviewContent := [], ContentHtml := [], ContentTailHtml := [],
    IsPartial := false, IsTruncated := false, IsValid := false }

/-- A collaborator call made by `generateArticle`: `r.Select(m, offset, maxlen)`
or `ar.Render(content)` on a renderer whose `DisableArticleHeader` flag is
`disableArticleHeader`. -/
inductive Call where
  | select (m : SelectMethod) (offset maxlen : Int)
  | render (disableArticleHeader : Bool) (content : List Byte)
  deriving DecidableEq, Repr

/-- Lines 142-152: render the head content and fill in the article. -/
def renderHead {ε : Type} (Render : Bool → List Byte → Except ε Rendered)
    (a : Article) (p : ArticlePart) (tr : List Call) : List Call × Except ε Article :=
  match Render false p.Content with
  | .error err => (tr ++ [Call.render false p.Content], .error err)
  | .ok buf =>
    (tr ++ [Call.render false p.Content],
     .ok { a with ParsedTitle := buf.ParsedTitle, PreviewContent := buf.PreviewContent,
                  ContentHtml := buf.Bytes, IsValid := true })

/-- Lines 115-152: everything after the fetch of `p` has been decided. -/
def finishArticle {ε : Type} (ErrNotFound : ε)
    (Select : SelectMethod → Int → Int → Except ε ArticlePart)
    (Render : Bool → List Byte → Except ε Rendered)
    (p : ArticlePart) (tr : List Call) : List Call × Except ε Article :=
  if p.Content.length = 0 then (tr, .error ErrNotFound)
  else
    let a : Article :=
      { Article.zero with IsPartial := decide (p.Length < p.FileSize),
                          IsTruncated := decide (p.Length < p.FileSize) }
    if a.IsPartial then
      match Select .SelectTail (-TailSize) TailSize with
      | .error err => (tr ++ [Call.select .SelectTail (-TailSize) TailSize], .error err)
      | .ok ptail =>
        if ptail.Content.length > 0 then
          match Render true ptail.Content with
          | .error err =>
            (tr ++ [Call.select .SelectTail (-TailSize) TailSize,
                    Call.render true ptail.Content], .error err)
          | .ok buf =>
            renderHead Render { a with ContentTailHtml := buf.Bytes } p
              (tr ++ [Call.select .SelectTail (-TailSize) TailSize,
                      Call.render true ptail.Content])
        else
          renderHead Render a p (tr ++ [Call.select .SelectTail (-TailSize) TailSize])
    else renderHead Render a p tr

/-- The function `generateArticle` (lines 98-153). `Select` is the request's
range fetcher, `Render` the renderer (already carrying the request context),
`ErrNotFound` the value `pttbbs.ErrNotFound`. The result pairs the calls made,
in order, with the returned artifact or error. -/
def generateArticle {ε : Type} (ErrNotFound : ε)
    (Select : SelectMethod → Int → Int → Except ε ArticlePart)
    (Render : Bool → List Byte → Except ε Rendered) : List Call × Except ε Article :=
  match Select .SelectHead 0 HeadSize with
  | .error err => ([Call.select .SelectHead 0 HeadSize], .error err)
  | .ok p =>
    if p.FileSize > HeadSize ∧ p.FileSize ≤ HeadSize + TailSize then
      match Select .SelectPart 0 p.FileSize with
      | .error err =>
        ([Call.select .SelectHead 0 HeadSize, Call.select .SelectPart 0 p.FileSize], .error err)
      | .ok p2 =>
        finishArticle ErrNotFound Select Render p2
          [Call.select .SelectHead 0 HeadSize, Call.select .SelectPart 0 p.FileSize]
    else
      finishArticle ErrNotFound Select Render p [Call.select .SelectHead 0 HeadSize]

/-- The bytes a range request designates in a file: `maxlen` bytes starting at
`offset`, where for `SelectTail` the (negative) offset counts from the end. -/
def requestedBytes (file : List Byte) (m : SelectMethod) (offset maxlen : Int) : List Byte :=
  match m with
  | .SelectTail => (file.drop ((file.length : Int) + offset).toNat).take maxlen.toNat
  | _ => (file.drop offset.toNat).take maxlen.toNat

/-- A fetcher serving the fixed file `file`: every fetch succeeds with the
requested bytes, the fetched length is the number of bytes returned and the
total size is the file's length. -/
def fileFetcher {ε : Type} (file : List Byte) (m : SelectMethod) (offset maxlen : Int) :
    Except ε ArticlePart :=
  .ok { Content := requestedBytes file m offset maxlen,
        FileSize := file.length,
        Length := (requestedBytes file m offset maxlen).length }

/-- The byte-range contract of the backend content source, for the file
`file`: `Select` answers every request as `fileFetcher file` does. -/
def HonoursRangeContract {ε : Type} (Select : SelectMethod → Int → Int → Except ε ArticlePart)
    (file : List Byte) : Prop :=
  ∀ m offset maxlen, Select m offset maxlen = fileFetcher file m offset maxlen

/-- What `sampleRender` returns for a tail render. -/
def sampleTailOut : Rendered :=
  { Bytes := [116], ParsedTitle := [], PreviewContent := [] }

/-- What `sampleRender` returns for a head render. -/
def sampleHeadOut : Rendered :=
  { Bytes := [104], ParsedTitle := [84], PreviewContent := [80] }

/-- A renderer that always succeeds, with a fixed output for each setting of
the `DisableArticleHeader` flag. -/
def sampleRender (disableArticleHeader : Bool) (_content : List Byte) : Except Unit Rendered :=
  match disableArticleHeader with
  | true => .ok sampleTailOut
  | false => .ok sampleHeadOut

/-- A file of `n` bytes, each the letter `A`. -/
def sampleFile (n : Nat) : List Byte := List.replicate n 65

/-- A fetcher whose answers are short reads of a 10-byte file: it reports the
total size 10 but hands back, and counts, fewer bytes. -/
def shortReadFetcher (m : SelectMethod) (_offset _maxlen : Int) : Except Unit ArticlePart :=
  match m with
  | .SelectTail => .ok { Content := [66, 66], FileSize := 10, Length := 2 }
  | _ => .ok { Content := [65, 65, 65, 65, 65], FileSize := 10, Length := 5 }

/-- A fetcher whose head fetch returns no bytes while reporting a total size of
102401, and whose exact-range fetch returns one byte. -/
def emptyHeadFetcher (m : SelectMethod) (_offset _maxlen : Int) : Except Unit ArticlePart :=
  match m with
  | .SelectHead => .ok { Content := [], FileSize := 102401, Length := 0 }
  | _ => .ok { Content := [65], FileSize := 102401, Length := 102401 }

/-- Whether a call is a tail fetch. -/
def Call.isTailSelect : Call → Bool
  | .select .SelectTail _ _ => true
  | _ => false

/-- Whether a call is a renderer run. -/
def Call.isRender : Call → Bool
  | .render _ _ => true
  | .select _ _ _ => false

/-! ## Truncation (`cached_ops.go`, lines 155-165) -/

/-- Two's-complement wrap of a mathematical integer into the range of a 64-bit
Go `int`. -/
def wrap64 (x : Int) : Int := (x + 2 ^ 63) % 2 ^ 64 - 2 ^ 63

/-- The values a 64-bit Go `int` can hold. -/
def IsInt64 (x : Int) : Prop := -(2 ^ 63) ≤ x ∧ x < 2 ^ 63

instance (x : Int) : Decidable (IsInt64 x) := by
  unfold IsInt64; infer_instance

/-- The slice expression `content[:k]`; `none` is the bounds panic. (The upper
bound of a Go slice expression is the capacity; both uses in
`truncateLargeContent` have `k` below the length.) -/
def sliceTo (content : List Byte) (k : Int) : Option (List Byte) :=
  if 0 ≤ k ∧ k ≤ content.length then some (content.take k.toNat) else none

/-- The loop `for i := ...; i >= size-maxScan && i >= 0; i--` of
`truncateLargeContent`, with `lo` the value of `size-maxScan`. The counter is
`k = i + 1` for `i ≥ 0`, and `k = 0` stands for every `i < 0`, where the guard
`i >= 0` ends the loop; `after` is the value of the statement that follows the
loop. -/
def scanBack (content : List Byte) (lo : Int) (after : Option (List Byte)) :
    Nat → Option (List Byte)
  | 0 => after
  | i + 1 =>
    if (i : Int) ≥ lo then
      match content[i]? with
      | none => none
      | some b =>
        if b = 10 then sliceTo content ((i : Int) + 1)
        else scanBack content lo after i
    else after

/-- The function `truncateLargeContent` (lines 155-165); `size` and `maxScan`
are Go `int`s, `size - 1` and `size - maxScan` are computed in 64 bits. -/
def truncateLargeContent (content : List Byte) (size maxScan : Int) : Option (List Byte) :=
  if (content.length : Int) ≤ size then some content
  else
    scanBack content (wrap64 (size - maxScan)) (sliceTo content size)
      (wrap64 (size - 1) + 1).toNat

/-! ## URL dispatch (`richcontent/url_based_finder.go`, lines 12-35) -/

/-- Modelled from the spec: `Component` (declared outside the two source files)
is an opaque pre-rendered embeddable unit; `MakeComponent` wraps the HTML text
it is given. -/
structure Component where
  Html : List Byte
  deriving DecidableEq, Repr

/-- The constructor `MakeComponent`. -/
def MakeComponent (html : List Byte) : Component := { Html := html }

/-- The type `MatchIndices`: the index pairs returned by
`FindSubmatchIndex`. -/
abbrev MatchIndices := List Int

/-- Modelled from the spec: `RichContent` (declared outside the two source
files) carries start and end offsets into the source text, the original
matched URL text and the ordered list of embed Components. -/
structure RichContent where
  Pos : Int
  End : Int
  UrlString : List Byte
  Components : List Component
  deriving DecidableEq, Repr

/-- The constructor `MakeRichContent(pos, end, urlString, components)`. -/
def MakeRichContent (pos end_ : Int) (urlString : List Byte)
    (components : List Component) : RichContent :=
  { Pos := pos, End := end_, UrlString := urlString, Components := components }

/-- The type `UrlPattern`: `Pattern` is the compiled regular expression seen
through `FindSubmatchIndex` (`none` is Go's `nil`, no match), `Handler` is the
`UrlPatternHandler` (with its context argument already supplied). -/
structure UrlPattern (ε : Type) where
  Pattern : List Byte → Option MatchIndices
  Handler : List Byte → MatchIndices → Except ε (List Component)

/-- The inner loop of `FindUrl` (lines 16-24) over the patterns from position
`idx` on: the value of `components` after the loop, and the positions of the
patterns whose handler was invoked. -/
def dispatchFrom {ε : Type} (urlBytes : List Byte) :
    List (UrlPattern ε) → Nat → List Component × List Nat
  | [], _ => ([], [])
  | p :: rest, idx =>
    match p.Pattern urlBytes with
    | some m =>
      match p.Handler urlBytes m with
      | .ok c => (c, [idx])
      | .error _ => ([], [idx])
    | none => dispatchFrom urlBytes rest (idx + 1)

/-- The inner loop of `FindUrl` over the whole pattern list. -/
def dispatchUrl {ε : Type} (patterns : List (UrlPattern ε)) (urlBytes : List Byte) :
    List Component × List Nat :=
  dispatchFrom urlBytes patterns 0

/-- The bytes of `input` from offset `u.1` up to, not including, offset
`u.2`. -/
def urlBytesAt (input : List Byte) (u : Int × Int) : List Byte :=
  (input.drop u.1.toNat).take (u.2 - u.1).toNat

/-- The slice expression `input[lo:hi]`; `none` is the bounds panic. -/
def sliceRange (input : List Byte) (lo hi : Int) : Option (List Byte) :=
  if 0 ≤ lo ∧ lo ≤ hi ∧ hi ≤ input.length then some (urlBytesAt input (lo, hi))
  else none

/-- What a run of `FindUrl` returns (`rcs`, `err`), together with the handler
invocations made for each URL, in order. -/
structure FindUrlResult (ε : Type) where
  rcs : List RichContent
  err : Option ε
  handlerCalls : List (List Nat)

/-- The outer loop of `FindUrl` (lines 14-26) over the candidate ranges. -/
def findUrlLoop {ε : Type} (patterns : List (UrlPattern ε)) (input : List Byte) :
    List (Int × Int) → List RichContent → List (List Nat) →
    Option (List RichContent × List (List Nat))
  | [], rcs, log => some (rcs, log)
  | u :: us, rcs, log =>
    match sliceRange input u.1 u.2 with
    | none => none
    | some urlBytes =>
      findUrlLoop patterns input us
        (rcs ++ [MakeRichContent u.1 u.2 urlBytes (dispatchUrl patterns urlBytes).1])
        (log ++ [(dispatchUrl patterns urlBytes).2])

/-- The function `FindUrl` (lines 12-28). `FindAllUrlsIndex` is the external
URL finder, `patterns` the pattern list (`defaultUrlPatterns` in the source).
`none` is a run-time panic. -/
def FindUrl {ε : Type} (FindAllUrlsIndex : List Byte → List (Int × Int))
    (patterns : List (UrlPattern ε)) (input : List Byte) : Option (FindUrlResult ε) :=
  match findUrlLoop patterns input (FindAllUrlsIndex input) [] [] with
  | none => none
  | some (rcs, log) => some { rcs := rcs, err := none, handlerCalls := log }

/-- The ranges handed out by the URL finder lie inside the input. -/
def ValidRanges (input : List Byte) (ranges : List (Int × Int)) : Prop :=
  ∀ u ∈ ranges, 0 ≤ u.1 ∧ u.1 ≤ u.2 ∧ u.2 ≤ input.length

/-- The span `FindUrl` appends for the candidate range `u`. -/
def spanOf {ε : Type} (patterns : List (UrlPattern ε)) (input : List Byte) (u : Int × Int) :
    RichContent :=
  MakeRichContent u.1 u.2 (urlBytesAt input u) (dispatchUrl patterns (urlBytesAt input u)).1

/-- The handler invocations `FindUrl` makes for the candidate range `u`. -/
def callsOf {ε : Type} (patterns : List (UrlPattern ε)) (input : List Byte) (u : Int × Int) :
    List Nat :=
  (dispatchUrl patterns (urlBytesAt input u)).2

/-- What a successful handler's Components become in the span, and what a
failed handler leaves there. -/
def componentsOf {ε : Type} (r : Except ε (List Component)) : List Component :=
  match r with
  | .ok c => c
  | .error _ => []

/-- The pattern at position `k` is the first of `patterns`, in list order,
whose matcher matches `urlBytes`, with capture groups `m`. -/
def FirstMatch {ε : Type} (patterns : List (UrlPattern ε)) (urlBytes : List Byte)
    (k : Nat) (p : UrlPattern ε) (m : MatchIndices) : Prop :=
  patterns[k]? = some p ∧ p.Pattern urlBytes = some m ∧
    ∀ i q, i < k → patterns[i]? = some q → q.Pattern urlBytes = none

/-- Two pattern lists that differ at most in what their handlers do on the
URL `bad`: same length, the same matchers, and handlers that agree on every
other URL. -/
def AgreeOffUrl {ε : Type} (bad : List Byte) (patterns patterns2 : List (UrlPattern ε)) : Prop :=
  List.Forall₂
    (fun p q => p.Pattern = q.Pattern ∧ ∀ u m, u ≠ bad → p.Handler u m = q.Handler u m)
    patterns patterns2

/-- A URL finder that reports the two ranges `[0, 2)` and `[3, 5)`. -/
def sampleFinder (_input : List Byte) : List (Int × Int) := [(0, 2), (3, 5)]

/-- A pattern that matches every URL and whose handler fails on the URL `bad`
and embeds every other URL. -/
def failOn (bad : List Byte) : UrlPattern Unit :=
  { Pattern := fun _ => some [],
    Handler := fun u _ => if u = bad then .error () else .ok [MakeComponent u] }

/-- A pattern that matches every URL and whose handler embeds it. -/
def alwaysOk : UrlPattern Unit :=
  { Pattern := fun _ => some [], Handler := fun u _ => .ok [MakeComponent u] }

/-- A pattern that matches no URL. -/
def neverMatches : UrlPattern Unit :=
  { Pattern := fun _ => none, Handler := fun _ _ => .ok [MakeComponent [33]] }

/-! ## Board index generation (`cached_ops.go`, lines 13-77) -/

/-- Constant `EntryPerPage = 20`. -/
def EntryPerPage : Int := 20

/-- The fields of `pttbbs.Board` read by the generators. -/
structure Board where
  Bid : Int
  BrdName : List Byte
  deriving DecidableEq, Repr

/-- The type `BbsIndexRequest`. -/
structure BbsIndexRequest where
  Brd : Board
  Page : Int
  deriving DecidableEq, Repr

/-- The fields of `BbsIndex` written by `generateBbsIndex`; `α` is the type of
an article summary (`pttbbs.Article`). -/
structure BbsIndex (α : Type) where
  Board : Board
  IsValid : Bool
  TotalPage : Int
  Articles : List α
  Bottoms : List α
  HasPrevPage : Bool
  PrevPage : Int
  HasNextPage : Bool
  NextPage : Int
  deriving DecidableEq, Repr

/-- The collaborators of `generateBbsIndex`: the backend `ptt`
(`GetArticleCount`, `GetArticleList`, `GetBottomList`) and the pager
(`NewPaging`, `LastPageNo`, `SetPageNo`, `Cursor`), which is declared outside
the two source files. `π` is the pager's state, `κ` the type of a cursor;
`SetPageNo` returns the pager after the call and the error, if any. -/
structure BbsOps (π κ α ε : Type) where
  GetArticleCount : Int → Except ε Int
  GetArticleList : Int → κ → Except ε (List α)
  GetBottomList : Int → Except ε (List α)
  NewPaging : Int → Int → π
  LastPageNo : π → Int
  SetPageNo : π → Int → π × Option ε
  Cursor : π → κ

/-- A fallible collaborator call made by `generateBbsIndex`. -/
inductive BbsCall (κ : Type) where
  | getArticleCount (bid : Int)
  | setPageNo (page : Int)
  | getArticleList (bid : Int) (cursor : κ)
  | getBottomList (bid : Int)
  deriving DecidableEq, Repr

/-- Lines 66-76: the page links, on an index whose other fields are set. -/
def pageLinks {α : Type} (bbsindex : BbsIndex α) (page lastPageNo : Int) : BbsIndex α :=
  let b1 : BbsIndex α :=
    if page > 1 then { bbsindex with HasPrevPage := true, PrevPage := page - 1 } else bbsindex
  if page < lastPageNo then { b1 with HasNextPage := true, NextPage := page + 1 } else b1

/-- Lines 50-76: everything after the page has been selected; `page` is the
resolved page and `paging` the pager after `SetPageNo`. -/
def indexAfterPaging {π κ α ε : Type} (ops : BbsOps π κ α ε) (r : BbsIndexRequest)
    (page : Int) (paging : π) (tr : List (BbsCall κ)) :
    List (BbsCall κ) × Except ε (BbsIndex α) :=
  let bbsindex : BbsIndex α :=
    { Board := r.Brd, IsValid := true, TotalPage := ops.LastPageNo paging,
      Articles := [], Bottoms := [], HasPrevPage := false, PrevPage := 0,
      HasNextPage := false, NextPage := 0 }
  match ops.GetArticleList r.Brd.Bid (ops.Cursor paging) with
  | .error err => (tr ++ [BbsCall.getArticleList r.Brd.Bid (ops.Cursor paging)], .error err)
  | .ok articles =>
    if page = ops.LastPageNo paging then
      match ops.GetBottomList r.Brd.Bid with
      | .error err =>
        (tr ++ [BbsCall.getArticleList r.Brd.Bid (ops.Cursor paging),
                BbsCall.getBottomList r.Brd.Bid], .error err)
      | .ok bottoms =>
        (tr ++ [BbsCall.getArticleList r.Brd.Bid (ops.Cursor paging),
                BbsCall.getBottomList r.Brd.Bid],
         .ok (pageLinks { bbsindex with Articles := articles, Bottoms := bottoms } page
                (ops.LastPageNo paging)))
    else
      (tr ++ [BbsCall.getArticleList r.Brd.Bid (ops.Cursor paging)],
       .ok (pageLinks { bbsindex with Articles := articles } page (ops.LastPageNo paging)))

/-- The function `generateBbsIndex` (lines 28-77). The result pairs the
fallible collaborator calls made, in order, with the returned artifact or
error. On the `page == 0` branch the error of `SetPageNo` is discarded, as in
line 46. -/
def generateBbsIndex {π κ α ε : Type} (ops : BbsOps π κ α ε) (r : BbsIndexRequest) :
    List (BbsCall κ) × Except ε (BbsIndex α) :=
  match ops.GetArticleCount r.Brd.Bid with
  | .error err => ([BbsCall.getArticleCount r.Brd.Bid], .error err)
  | .ok count =>
    if r.Page = 0 then
      indexAfterPaging ops r (ops.LastPageNo (ops.NewPaging EntryPerPage count))
        (ops.SetPageNo (ops.NewPaging EntryPerPage count)
          (ops.LastPageNo (ops.NewPaging EntryPerPage count))).1
        [BbsCall.getArticleCount r.Brd.Bid,
         BbsCall.setPageNo (ops.LastPageNo (ops.NewPaging EntryPerPage count))]
    else
      match (ops.SetPageNo (ops.NewPaging EntryPerPage count) r.Page).2 with
      | some err =>
        ([BbsCall.getArticleCount r.Brd.Bid, BbsCall.setPageNo r.Page], .error err)
      | none =>
        indexAfterPaging ops r r.Page
          (ops.SetPageNo (ops.NewPaging EntryPerPage count) r.Page).1
          [BbsCall.getArticleCount r.Brd.Bid, BbsCall.setPageNo r.Page]

/-- Modelled from the spec: the pager (declared outside the two source files)
is built from a page size and a total count, `SetPageNo(n)` fails if `n` is
out of range, the pages being `1 .. LastPageNo()`, and the last page number is
fixed by the construction. -/
def PagerLaws {π κ α ε : Type} (ops : BbsOps π κ α ε) : Prop :=
  (∀ p n, ops.LastPageNo (ops.SetPageNo p n).1 = ops.LastPageNo p) ∧
  (∀ p n, (ops.SetPageNo p n).2 = none ↔ 1 ≤ n ∧ n ≤ ops.LastPageNo p)

/-- The state of the sample pager: entries per page, number of entries and
current page. -/
structure SamplePaging where
  perPage : Int
  nrEntries : Int
  curPage : Int
  deriving DecidableEq, Repr

/-- The last page of the sample pager: the entries divided by the page size,
rounded up. -/
def SamplePaging.last (p : SamplePaging) : Int :=
  (p.nrEntries + p.perPage - 1) / p.perPage

/-- A backend and pager for examples: every board holds `count` articles, the
article list of a page is the list of the entry numbers on it, the bottom list
is `[1000]`, and the pager rejects, with error `7`, the pages outside
`1 .. last`. -/
def sampleOps (count : Int) : BbsOps SamplePaging Int Int Nat :=
  { GetArticleCount := fun _ => .ok count,
    GetArticleList := fun _ cursor => .ok [cursor],
    GetBottomList := fun _ => .ok [1000],
    NewPaging := fun perPage nrEntries =>
      { perPage := perPage, nrEntries := nrEntries, curPage := 0 },
    LastPageNo := SamplePaging.last,
    SetPageNo := fun p n =>
      ({ p with curPage := n }, if 1 ≤ n ∧ n ≤ p.last then none else some 7),
    Cursor := fun p => p.perPage * (p.curPage - 1) }

/-- The board used in examples. -/
def sampleBoard : Board := { Bid := 3, BrdName := [71, 111] }

/-- The page `generateBbsIndex` works with once the article count is known: the
requested page, or the pager's last page when page 0 is requested. -/
def resolvedPage {π κ α ε : Type} (ops : BbsOps π κ α ε) (r : BbsIndexRequest) (count : Int) :
    Int :=
  if r.Page = 0 then ops.LastPageNo (ops.NewPaging EntryPerPage count) else r.Page

/-- The pager after the page selection of lines 43-49. -/
def selectedPaging {π κ α ε : Type} (ops : BbsOps π κ α ε) (r : BbsIndexRequest) (count : Int) :
    π :=
  (ops.SetPageNo (ops.NewPaging EntryPerPage count) (resolvedPage ops r count)).1

/-! ## Request identities (`cached_ops.go`, lines 19-26 and 87-96) -/

/-- The bytes of a text made of ASCII characters, as in a Go string
literal. -/
def bytesOf (s : String) : List Byte := s.toList.map Char.toNat

/-- The decimal digits of a natural number, most significant first, as
`fmt` prints them: `0` is the one digit `0`. -/
def decimalNat (n : Nat) : List Byte :=
  if n = 0 then [48] else (Nat.digits 10 n).reverse.map (fun d => d + 48)

/-- The verb `%v` of `fmt.Sprintf` on an `int`: the decimal digits, after a
minus sign when the number is negative. -/
def formatInt (z : Int) : List Byte :=
  if z < 0 then 45 :: decimalNat z.natAbs else decimalNat z.natAbs

/-- The method `BbsIndexRequest.String` (lines 24-26):
`fmt.Sprintf("pttweb:bbsindex/%v/%v", r.Brd.BrdName, r.Page)`. -/
def BbsIndexRequest.String (r : BbsIndexRequest) : List Byte :=
  bytesOf "pttweb:bbsindex/" ++ r.Brd.BrdName ++ bytesOf "/" ++ formatInt r.Page

/-- The type `ArticleRequest` (lines 87-92). -/
structure ArticleRequest (ε : Type) where
  Namespace : List Byte
  Brd : Board
  Filename : List Byte
  Select : SelectMethod → Int → Int → Except ε ArticlePart

/-- The method `ArticleRequest.String` (lines 94-96):
`fmt.Sprintf("pttweb:%v/%v/%v", r.Namespace, r.Brd.BrdName, r.Filename)`. -/
def ArticleRequest.String {ε : Type} (r : ArticleRequest ε) : List Byte :=
  bytesOf "pttweb:" ++ r.Namespace ++ bytesOf "/" ++ r.Brd.BrdName ++ bytesOf "/" ++ r.Filename

/-- An article request whose namespace is the text `bbsindex` and whose file
name is the text `5`. -/
def collidingArticleRequest : ArticleRequest Unit :=
  { Namespace := bytesOf "bbsindex", Brd := sampleBoard, Filename := bytesOf "5",
    Select := fileFetcher [] }

/-! ## Collaborator failures -/

/-- The error of a collaborator's answer, if it failed. -/
def errorOf {ε α : Type} : Except ε α → Option ε
  | .ok _ => none
  | .error e => some e

/-- The error, if any, with which the collaborator answers a call of
`generateArticle`. -/
def articleCallError {ε : Type} (Select : SelectMethod → Int → Int → Except ε ArticlePart)
    (Render : Bool → List Byte → Except ε Rendered) : Call → Option ε
  | .select m offset maxlen => errorOf (Select m offset maxlen)
  | .render disableArticleHeader content => errorOf (Render disableArticleHeader content)

/-- The error, if any, with which the collaborator answers a call of
`generateBbsIndex` for the request `r`; `SetPageNo` is called on the pager
freshly built from the article count. -/
def bbsCallError {π κ α ε : Type} (ops : BbsOps π κ α ε) (r : BbsIndexRequest) :
    BbsCall κ → Option ε
  | .getArticleCount bid => errorOf (ops.GetArticleCount bid)
  | .setPageNo page =>
    match ops.GetArticleCount r.Brd.Bid with
    | .ok count => (ops.SetPageNo (ops.NewPaging EntryPerPage count) page).2
    | .error _ => none
  | .getArticleList bid cursor => errorOf (ops.GetArticleList bid cursor)
  | .getBottomList bid => errorOf (ops.GetBottomList bid)

/-! ## Regular expressions of the pattern table

The five patterns of `defaultUrlPatterns` are written as syntax trees and run
by a backtracking matcher with the leftmost-first preference of Go's `regexp`:
alternatives are tried left to right and repetitions are greedy. A class
matches one byte; `\w` and `\d` are the ASCII classes, `.` is any byte but the
newline. -/

/-- The syntax of the regular expressions used by the pattern table. -/
inductive Regex where
  | empty
  | char (p : Byte → Bool)
  | seq (a b : Regex)
  | alt (a b : Regex)
  | star (a : Regex)
  | group (i : Nat) (a : Regex)
  | bol
  | eol

/-- The capture positions of a run: entry `i` is the start and end offset of
group `i`, or `(-1, -1)` while the group has not taken part. -/
abbrev Captures := List (Int × Int)

/-- The continuation of a run: what is still to be matched after a
position. -/
abbrev RegexCont := Nat → List Byte → Captures → Option Captures

/-- Greedy repetition of `step`, which must consume at least one byte per
round; `fuel` bounds the rounds and is set to more than the bytes left. -/
def starLoop (step : Nat → List Byte → Captures → RegexCont → Option Captures) :
    Nat → Nat → List Byte → Captures → RegexCont → Option Captures
  | 0, pos, rest, caps, k => k pos rest caps
  | fuel + 1, pos, rest, caps, k =>
    match step pos rest caps
        (fun pos2 rest2 caps2 =>
          if pos2 > pos then starLoop step fuel pos2 rest2 caps2 k else none) with
    | some r => some r
    | none => k pos rest caps

/-- The backtracking run of a regular expression at offset `pos` with `rest`
the bytes from there on; `k` continues after the match. -/
def Regex.run : Regex → Nat → List Byte → Captures → RegexCont → Option Captures
  | .empty, pos, rest, caps, k => k pos rest caps
  | .char p, pos, rest, caps, k =>
    match rest with
    | c :: cs => if p c then k (pos + 1) cs caps else none
    | [] => none
  | .seq a b, pos, rest, caps, k =>
    a.run pos rest caps (fun pos2 rest2 caps2 => b.run pos2 rest2 caps2 k)
  | .alt a b, pos, rest, caps, k =>
    match a.run pos rest caps k with
    | some r => some r
    | none => b.run pos rest caps k
  | .star a, pos, rest, caps, k =>
    starLoop (fun pos2 rest2 caps2 k2 => a.run pos2 rest2 caps2 k2) (rest.length + 1)
      pos rest caps k
  | .group i a, pos, rest, caps, k =>
    a.run pos rest caps (fun pos2 rest2 caps2 => k pos2 rest2 (caps2.set i (pos, pos2)))
  | .bol, pos, rest, caps, k => if pos = 0 then k pos rest caps else none
  | .eol, pos, rest, caps, k => if rest.isEmpty then k pos rest caps else none

/-- The expression `a+`. -/
def Regex.plus (a : Regex) : Regex := .seq a (.star a)

/-- The expression `a?`. -/
def Regex.opt (a : Regex) : Regex := .alt a .empty

/-- The expression matching the literal text `s`. -/
def Regex.lit : List Byte → Regex
  | [] => .empty
  | c :: cs => .seq (.char (fun b => b == c)) (Regex.lit cs)

/-- The expression matching the sequence of the expressions `rs`. -/
def Regex.seqs : List Regex → Regex
  | [] => .empty
  | r :: rs => .seq r (Regex.seqs rs)

/-- The class `\d`. -/
def isDigit (b : Byte) : Bool := decide (48 ≤ b ∧ b ≤ 57)

/-- The class `\w`: ASCII letters, digits and the underscore. -/
def isWord (b : Byte) : Bool :=
  isDigit b || decide (65 ≤ b ∧ b ≤ 90) || decide (97 ≤ b ∧ b ≤ 122) || b == 95

/-- The index pairs of a match, flattened as `FindSubmatchIndex` returns
them. -/
def flattenCaptures : Captures → MatchIndices
  | [] => []
  | (s, e) :: rest => s :: e :: flattenCaptures rest

/-- The search for the leftmost match, trying the start offsets `pos`,
`pos + 1`, ... in turn. -/
def findFrom (re : Regex) (ngroups : Nat) : Nat → List Byte → Option MatchIndices
  | pos, [] =>
    match re.run pos [] (List.replicate (ngroups + 1) (-1, -1))
        (fun pos2 _ caps => some (caps.set 0 (pos, pos2))) with
    | some caps => some (flattenCaptures caps)
    | none => none
  | pos, c :: cs =>
    match re.run pos (c :: cs) (List.replicate (ngroups + 1) (-1, -1))
        (fun pos2 _ caps => some (caps.set 0 (pos, pos2))) with
    | some caps => some (flattenCaptures caps)
    | none => findFrom re ngroups (pos + 1) cs

/-- The method `FindSubmatchIndex` of a compiled expression with `ngroups`
capture groups; `none` is Go's `nil`. -/
def FindSubmatchIndex (re : Regex) (ngroups : Nat) (b : List Byte) : Option MatchIndices :=
  findFrom re ngroups 0 b

/-- Pattern 1:
`^https?://(?:www\.youtube\.com/watch\?(?:.+&)*v=|youtu\.be/)([\w\-]+)`. -/
def youtubeRegex : Regex :=
  Regex.seqs [.bol, Regex.lit (bytesOf "http"), Regex.opt (Regex.lit (bytesOf "s")),
    Regex.lit (bytesOf "://"),
    .alt
      (Regex.seqs [Regex.lit (bytesOf "www.youtube.com/watch?"),
        .star (.seq (Regex.plus (.char (fun b => b != 10))) (Regex.lit (bytesOf "&"))),
        Regex.lit (bytesOf "v=")])
      (Regex.lit (bytesOf "youtu.be/")),
    .group 1 (Regex.plus (.char (fun b => isWord b || b == 45)))]

/-- Pattern 2: `^https?:(//i\.imgur\.com/[\.\w]+)$`. -/
def sameSchemeImageRegex : Regex :=
  Regex.seqs [.bol, Regex.lit (bytesOf "http"), Regex.opt (Regex.lit (bytesOf "s")),
    Regex.lit (bytesOf ":"),
    .group 1 (.seq (Regex.lit (bytesOf "//i.imgur.com/"))
      (Regex.plus (.char (fun b => b == 46 || isWord b)))),
    .eol]

/-- Pattern 3: `^https?://imgur\.com/([,\w]+)(?:\#(\d+))?[^/]*$`. -/
def imgurRegex : Regex :=
  Regex.seqs [.bol, Regex.lit (bytesOf "http"), Regex.opt (Regex.lit (bytesOf "s")),
    Regex.lit (bytesOf "://imgur.com/"),
    .group 1 (Regex.plus (.char (fun b => b == 44 || isWord b))),
    Regex.opt (.seq (Regex.lit (bytesOf "#")) (.group 2 (Regex.plus (.char isDigit)))),
    .star (.char (fun b => b != 47)),
    .eol]

/-- Pattern 4: `^http://picmoe\.net/d\.php\?id=(\d+)`. -/
def picmoeRegex : Regex :=
  Regex.seqs [.bol, Regex.lit (bytesOf "http://picmoe.net/d.php?id="),
    .group 1 (Regex.plus (.char isDigit))]

/-- Pattern 5: `\.(?i:png|jpg|gif)$`. -/
def genericImageRegex : Regex :=
  Regex.seqs [Regex.lit (bytesOf "."),
    .alt
      (Regex.seqs [.char (fun b => b == 112 || b == 80), .char (fun b => b == 110 || b == 78),
        .char (fun b => b == 103 || b == 71)])
      (.alt
        (Regex.seqs [.char (fun b => b == 106 || b == 74), .char (fun b => b == 112 || b == 80),
          .char (fun b => b == 103 || b == 71)])
        (Regex.seqs [.char (fun b => b == 103 || b == 71), .char (fun b => b == 105 || b == 73),
          .char (fun b => b == 102 || b == 70)])),
    .eol]

/-! ## Handlers (`richcontent/url_based_finder.go`, lines 37-84) -/

/-- The replacement `html.EscapeString` makes for one byte: the five bytes
`&`, `'`, `<`, `>` and `"` become `&amp;`, `&#39;`, `&lt;`, `&gt;` and
`&#34;`. -/
def escapeByte (b : Byte) : List Byte :=
  if b = 38 then bytesOf "&amp;"
  else if b = 39 then bytesOf "&#39;"
  else if b = 60 then bytesOf "&lt;"
  else if b = 62 then bytesOf "&gt;"
  else if b = 34 then bytesOf "&#34;"
  else [b]

/-- The library function `html.EscapeString`. -/
def EscapeString : List Byte → List Byte
  | [] => []
  | b :: bs => escapeByte b ++ EscapeString bs

/-- The function `imageHtmlTag` (lines 52-54):
`fmt.Sprintf("<img src=\"%s\" alt=\"\" />", html.EscapeString(urlString))`. -/
def imageHtmlTag (urlString : List Byte) : List Byte :=
  bytesOf "<img src=" ++ [34] ++ EscapeString urlString ++ [34] ++ bytesOf " alt=" ++
    [34, 34] ++ bytesOf " />"

/-- Modelled from the spec: `MatchIndices.ByteSliceOf(b, i)` (declared outside
the two source files) hands a handler the bytes of capture group `i`, that is
`b[m[2i]:m[2i+1]]`. The slice is taken as by `urlBytesAt`, which is the Go
slice whenever the group lies inside `b` (`ValidGroup`). -/
def ByteSliceOf (m : MatchIndices) (b : List Byte) (i : Nat) : List Byte :=
  urlBytesAt b (m.getD (2 * i) 0, m.getD (2 * i + 1) 0)

/-- Capture group `i` of `m` took part in the match and lies inside `b`. -/
def ValidGroup (m : MatchIndices) (b : List Byte) (i : Nat) : Prop :=
  ∃ s e, m[2 * i]? = some s ∧ m[2 * i + 1]? = some e ∧ 0 ≤ s ∧ s ≤ e ∧ e ≤ (b.length : Int)

/-- The library function `strings.Split(s, sep)` for a separator of one
byte: the pieces of `s` between the separators, one more than there are
separators. -/
def stringsSplit (sep : Byte) : List Byte → List (List Byte)
  | [] => [[]]
  | c :: cs =>
    if c = sep then [] :: stringsSplit sep cs
    else
      match stringsSplit sep cs with
      | [] => [[c]]
      | x :: xs => (c :: x) :: xs

/-- The handler `handleYoutube` (lines 58-62). -/
def handleYoutube {ε : Type} (urlBytes : List Byte) (m : MatchIndices) :
    Except ε (List Component) :=
  .ok [MakeComponent
    (bytesOf "<div class=" ++ [34] ++ bytesOf "resize-container" ++ [34] ++
      bytesOf "><div class=" ++ [34] ++ bytesOf "resize-content" ++ [34] ++
      bytesOf "><iframe class=" ++ [34] ++ bytesOf "youtube-player" ++ [34] ++
      bytesOf " type=" ++ [34] ++ bytesOf "text/html" ++ [34] ++
      bytesOf " src=" ++ [34] ++ bytesOf "//www.youtube.com/embed/" ++
      ByteSliceOf m urlBytes 1 ++ [34] ++
      bytesOf " frameborder=" ++ [34] ++ bytesOf "0" ++ [34] ++
      bytesOf "></iframe></div></div>")]

/-- The handler `handleSameSchemeImage` (lines 64-66). -/
def handleSameSchemeImage {ε : Type} (urlBytes : List Byte) (m : MatchIndices) :
    Except ε (List Component) :=
  .ok [MakeComponent (imageHtmlTag (ByteSliceOf m urlBytes 1))]

/-- The link `fmt.Sprintf("//i.imgur.com/%s.jpg", id)` of `handleImgur`. -/
def imgurLink (id : List Byte) : List Byte :=
  bytesOf "//i.imgur.com/" ++ id ++ bytesOf ".jpg"

/-- The loop of `handleImgur` (lines 70-73) over the ids still to come, with
`comps` the Components appended so far. -/
def imgurLoop : List (List Byte) → List Component → List Component
  | [], comps => comps
  | id :: ids, comps => imgurLoop ids (comps ++ [MakeComponent (imageHtmlTag (imgurLink id))])

/-- The handler `handleImgur` (lines 68-75). -/
def handleImgur {ε : Type} (urlBytes : List Byte) (m : MatchIndices) :
    Except ε (List Component) :=
  .ok (imgurLoop (stringsSplit 44 (ByteSliceOf m urlBytes 1)) [])

/-- The link `fmt.Sprintf("http://picmoe.net/src/%ss.jpg", id)` of
`handlePicmoe`. -/
def picmoeLink (id : List Byte) : List Byte :=
  bytesOf "http://picmoe.net/src/" ++ id ++ bytesOf "s.jpg"

/-- The handler `handlePicmoe` (lines 77-80). -/
def handlePicmoe {ε : Type} (urlBytes : List Byte) (m : MatchIndices) :
    Except ε (List Component) :=
  .ok [MakeComponent (imageHtmlTag (picmoeLink (ByteSliceOf m urlBytes 1)))]

/-- The handler `handleGenericImage` (lines 82-84). -/
def handleGenericImage {ε : Type} (urlBytes : List Byte) (_m : MatchIndices) :
    Except ε (List Component) :=
  .ok [MakeComponent (imageHtmlTag urlBytes)]

/-- The function `newUrlPattern` (lines 45-50), on an expression with
`ngroups` capture groups. -/
def newUrlPattern {ε : Type} (re : Regex) (ngroups : Nat)
    (handler : List Byte → MatchIndices → Except ε (List Component)) : UrlPattern ε :=
  { Pattern := FindSubmatchIndex re ngroups, Handler := handler }

/-- The table `defaultUrlPatterns` (lines 37-43). -/
def defaultUrlPatterns {ε : Type} : List (UrlPattern ε) :=
  [newUrlPattern youtubeRegex 1 handleYoutube,
   newUrlPattern sameSchemeImageRegex 1 handleSameSchemeImage,
   newUrlPattern imgurRegex 2 handleImgur,
   newUrlPattern picmoeRegex 1 handlePicmoe,
   newUrlPattern genericImageRegex 0 handleGenericImage]

/-- A URL finder that reports the whole input as the one candidate. -/
def wholeInputFinder (input : List Byte) : List (Int × Int) := [(0, input.length)]

/-- What follows the `&` in the five entities `html.EscapeString` writes:
`amp;`, `#39;`, `lt;`, `gt;`, `#34;`. -/
def entityTails : List (List Byte) :=
  [bytesOf "amp;", bytesOf "#39;", bytesOf "lt;", bytesOf "gt;", bytesOf "#34;"]

/-- The text `E` is attribute-safe: it holds no raw double quote, single quote,
`<` or `>`, and every `&` in it starts one of the five entities. -/
def AttributeSafe (E : List Byte) : Prop :=
  (∀ b : Nat, b ∈ E → b ≠ 34 ∧ b ≠ 39 ∧ b ≠ 60 ∧ b ≠ 62) ∧
  (∀ pre suf, E = pre ++ 38 :: suf → ∃ tail ∈ entityTails, ∃ rest, suf = tail ++ rest)

/-- The Component `c` is exactly the image tag `<img src="E" alt="" />` with
`E` the escaped form of `text`, and `E` is attribute-safe. -/
def IsEscapedImageTag (c : Component) (text : List Byte) : Prop :=
  c = MakeComponent (bytesOf "<img src=" ++ [34] ++ EscapeString text ++ [34] ++
        bytesOf " alt=" ++ [34, 34] ++ bytesOf " />") ∧
    AttributeSafe (EscapeString text)

/-- Whether capture group `i` occurs in the expression. -/
def Regex.hasGroup (i : Nat) : Regex → Bool
  | .empty => false
  | .char _ => false
  | .seq a b => a.hasGroup i || b.hasGroup i
  | .alt a b => a.hasGroup i || b.hasGroup i
  | .star a => a.hasGroup i
  | .group j a => j == i || a.hasGroup i
  | .bol => false
  | .eol => false

/-- The part of pattern 3 after capture group 1: `(?:\#(\d+))?[^/]*$`. -/
def imgurRegexAfterIds : Regex :=
  Regex.seqs [Regex.opt (.seq (Regex.lit (bytesOf "#")) (.group 2 (Regex.plus (.char isDigit)))),
    .star (.char (fun b => b != 47)),
    .eol]

/-- The continuation that ends a match begun at offset `start`: it records
group 0. -/
def acceptAt (start : Nat) : RegexCont :=
  fun pos2 _ caps => some (caps.set 0 ((start : Int), (pos2 : Int)))

/-! ## Theorems -/

/-- The exact-range request for the whole file designates the whole file. -/
theorem requestedBytes_part_all (file : List Byte) :
    requestedBytes file .SelectPart 0 (file.length : Int) = file := by
  simp [requestedBytes]

/-- The head request designates the first `HeadSize` bytes. -/
theorem requestedBytes_head (file : List Byte) :
    requestedBytes file .SelectHead 0 HeadSize = file.take HeadSize.toNat := by
  simp [requestedBytes]

/-- The tail request designates the bytes from `F - TailSize` on, when the file
has more than `TailSize` bytes. -/
theorem requestedBytes_tail (file : List Byte) (h : TailSize ≤ (file.length : Int)) :
    requestedBytes file .SelectTail (-TailSize) TailSize = file.drop (file.length - TailSize.toNat) := by
  have h2 : 51200 ≤ file.length := by
    unfold TailSize at h; omega
  have e : ((file.length : Int) + -TailSize).toNat = file.length - TailSize.toNat := by
    unfold TailSize; omega
  have e2 : TailSize.toNat = 51200 := by
    unfold TailSize; rfl
  simp only [requestedBytes, e]
  apply List.take_of_length_le
  simp only [List.length_drop, e2]
  omega

/-- The fetcher `fileFetcher file` honours the byte-range contract. -/
theorem fileFetcher_honours {ε : Type} (file : List Byte) :
    HonoursRangeContract (fileFetcher file : SelectMethod → Int → Int → Except ε ArticlePart)
      file :=
  fun _ _ _ => rfl

/-- The length of `sampleFile n`. -/
theorem sampleFile_length (n : Nat) : (sampleFile n).length = n := by
  simp [sampleFile]

/-- C1. Middle window: a fetcher serving a fixed file of `F` bytes with
`HeadSize < F ≤ HeadSize + TailSize`, and a renderer that succeeds on the file,
make `generateArticle` issue exactly the head fetch, then one exact-range fetch
`Select(Part, 0, F)`, then one render of the second fetch's content (the whole
file); no tail fetch is made, and the article has `IsPartial = false` and an
empty tail. -/
theorem generateArticle_middle_window {ε : Type} (ErrNotFound : ε)
    (Select : SelectMethod → Int → Int → Except ε ArticlePart)
    (Render : Bool → List Byte → Except ε Rendered) (file : List Byte) (out : Rendered)
    (hsel : HonoursRangeContract Select file)
    (hlo : HeadSize < (file.length : Int))
    (hhi : (file.length : Int) ≤ HeadSize + TailSize)
    (hrender : Render false file = .ok out) :
    generateArticle ErrNotFound Select Render =
      ([Call.select .SelectHead 0 HeadSize, Call.select .SelectPart 0 (file.length : Int),
        Call.render false file],
       .ok { ParsedTitle := out.ParsedTitle, PreviewContent := out.PreviewContent,
             ContentHtml := out.Bytes, ContentTailHtml := [],
             IsPartial := false, IsTruncated := false, IsValid := true }) := by
  have hne : file.length ≠ 0 := by
    unfold HeadSize at hlo; omega
  simp only [generateArticle, hsel .SelectHead, hsel .SelectPart, fileFetcher,
    requestedBytes_part_all, finishArticle, renderHead, hrender, Article.zero]
  simp [hlo, hhi, hne]

/-- C1, at a file of 102401 bytes served by `fileFetcher` and rendered by
`sampleRender`. -/
theorem generateArticle_middle_window_witness :
    generateArticle () (fileFetcher (sampleFile 102401)) sampleRender =
      ([Call.select .SelectHead 0 HeadSize,
        Call.select .SelectPart 0 ((sampleFile 102401).length : Int),
        Call.render false (sampleFile 102401)],
       .ok { ParsedTitle := sampleHeadOut.ParsedTitle,
             PreviewContent := sampleHeadOut.PreviewContent,
             ContentHtml := sampleHeadOut.Bytes, ContentTailHtml := [],
             IsPartial := false, IsTruncated := false, IsValid := true }) :=
  generateArticle_middle_window () (fileFetcher (sampleFile 102401)) sampleRender
    (sampleFile 102401) sampleHeadOut (fileFetcher_honours _)
    (by rw [sampleFile_length]; decide) (by rw [sampleFile_length]; decide) rfl

/-- The calls made by `renderHead`: one more render, of the head content. -/
theorem renderHead_calls {ε : Type} (Render : Bool → List Byte → Except ε Rendered)
    (a : Article) (p : ArticlePart) (tr : List Call) :
    (renderHead Render a p tr).1 = tr ++ [Call.render false p.Content] := by
  unfold renderHead
  cases Render false p.Content <;> rfl

/-- The calls made on a file that fits the head window: the head fetch and one
render of the whole file. -/
theorem generateArticle_calls_small {ε : Type} (ErrNotFound : ε)
    (Select : SelectMethod → Int → Int → Except ε ArticlePart)
    (Render : Bool → List Byte → Except ε Rendered) (file : List Byte)
    (hsel : HonoursRangeContract Select file)
    (h1 : 1 ≤ file.length) (hF : (file.length : Int) ≤ HeadSize) :
    (generateArticle ErrNotFound Select Render).1 =
      [Call.select .SelectHead 0 HeadSize, Call.render false file] := by
  have hle : file.length ≤ 102400 := by
    unfold HeadSize at hF; omega
  have e1 : HeadSize.toNat = 102400 := by
    unfold HeadSize; rfl
  have htake : List.take HeadSize.toNat file = file :=
    List.take_of_length_le (by rw [e1]; exact hle)
  have hne : file.length ≠ 0 := by omega
  have hnot : ¬ ((file.length : Int) > HeadSize ∧ (file.length : Int) ≤ HeadSize + TailSize) := by
    intro h; omega
  simp only [generateArticle, hsel .SelectHead, fileFetcher, requestedBytes_head, htake,
    finishArticle, Article.zero, hnot, if_false, hne, lt_irrefl, decide_False]
  simp [renderHead_calls]

/-- The calls made on a file in the middle window: the head fetch, the
exact-range fetch and one render of the whole file. -/
theorem generateArticle_calls_middle {ε : Type} (ErrNotFound : ε)
    (Select : SelectMethod → Int → Int → Except ε ArticlePart)
    (Render : Bool → List Byte → Except ε Rendered) (file : List Byte)
    (hsel : HonoursRangeContract Select file)
    (hlo : HeadSize < (file.length : Int))
    (hhi : (file.length : Int) ≤ HeadSize + TailSize) :
    (generateArticle ErrNotFound Select Render).1 =
      [Call.select .SelectHead 0 HeadSize, Call.select .SelectPart 0 (file.length : Int),
        Call.render false file] := by
  have hne : file.length ≠ 0 := by
    unfold HeadSize at hlo; omega
  have hin : (file.length : Int) > HeadSize ∧ (file.length : Int) ≤ HeadSize + TailSize :=
    ⟨hlo, hhi⟩
  simp only [generateArticle, hsel .SelectHead, hsel .SelectPart, fileFetcher,
    requestedBytes_part_all, finishArticle, Article.zero, hin, if_true, hne, lt_irrefl,
    decide_False]
  simp [renderHead_calls]

/-- The calls made on a file beyond both windows: the head fetch, the tail
fetch, the render of the last `TailSize` bytes and, unless that render fails,
the render of the first `HeadSize` bytes. -/
theorem generateArticle_calls_large {ε : Type} (ErrNotFound : ε)
    (Select : SelectMethod → Int → Int → Except ε ArticlePart)
    (Render : Bool → List Byte → Except ε Rendered) (file : List Byte)
    (hsel : HonoursRangeContract Select file)
    (hF : HeadSize + TailSize < (file.length : Int)) :
    (generateArticle ErrNotFound Select Render).1 =
      [Call.select .SelectHead 0 HeadSize, Call.select .SelectTail (-TailSize) TailSize,
        Call.render true (file.drop (file.length - TailSize.toNat))] ++
      (match Render true (file.drop (file.length - TailSize.toNat)) with
       | .ok _ => [Call.render false (file.take HeadSize.toNat)]
       | .error _ => []) := by
  have hlen : 153600 < file.length := by
    unfold HeadSize TailSize at hF; omega
  have hT : TailSize ≤ (file.length : Int) := by
    unfold TailSize; omega
  have hnot : ¬ ((file.length : Int) > HeadSize ∧ (file.length : Int) ≤ HeadSize + TailSize) := by
    intro h; omega
  have e1 : HeadSize.toNat = 102400 := by
    unfold HeadSize; rfl
  have e2 : TailSize.toNat = 51200 := by
    unfold TailSize; rfl
  have hhead : (List.take HeadSize.toNat file).length = HeadSize.toNat := by
    simp only [List.length_take, e1]; omega
  have htail : (List.drop (file.length - TailSize.toNat) file).length = TailSize.toNat := by
    simp only [List.length_drop, e2]; omega
  have hpart : ((HeadSize.toNat : Nat) : Int) < (file.length : Int) := by omega
  have hz1 : HeadSize.toNat ≠ 0 := by omega
  have hz2 : TailSize.toNat > 0 := by omega
  unfold generateArticle
  rw [hsel .SelectHead]
  simp only [fileFetcher, requestedBytes_head]
  rw [if_neg hnot]
  unfold finishArticle
  simp only [hhead, hz1, if_false, hpart, decide_True, if_true]
  rw [hsel .SelectTail]
  unfold fileFetcher
  rw [requestedBytes_tail file hT]
  dsimp only
  rw [if_pos (by rw [htail]; exact hz2)]
  cases Render true (List.drop (file.length - TailSize.toNat) file) <;>
    simp [renderHead_calls]

/-- C2. Head and tail windows never overlap: for a fetcher serving a fixed file
of `F ≥ 1` bytes, (1) when `F ≤ HeadSize + TailSize` no tail fetch and no tail
render is made; (2) whenever a tail is rendered, `HeadSize < F - TailSize`, the
tail render's input is the bytes `[F - TailSize, F)`, every head render's input
is the bytes `[0, HeadSize)`, and the file is head bytes, a middle part, then
tail bytes. -/
theorem generateArticle_windows_disjoint {ε : Type} (ErrNotFound : ε)
    (Select : SelectMethod → Int → Int → Except ε ArticlePart)
    (Render : Bool → List Byte → Except ε Rendered) (file : List Byte)
    (hsel : HonoursRangeContract Select file) (h1 : 1 ≤ file.length) :
    ((file.length : Int) ≤ HeadSize + TailSize →
      ∀ c ∈ (generateArticle ErrNotFound Select Render).1,
        c.isTailSelect = false ∧ ∀ tail, c ≠ Call.render true tail) ∧
    (∀ tail, Call.render true tail ∈ (generateArticle ErrNotFound Select Render).1 →
      HeadSize < (file.length : Int) - TailSize ∧
      tail = file.drop (file.length - TailSize.toNat) ∧
      (∀ head, Call.render false head ∈ (generateArticle ErrNotFound Select Render).1 →
        head = file.take HeadSize.toNat) ∧
      ∃ mid, mid ≠ [] ∧
        file = file.take HeadSize.toNat ++ mid ++ file.drop (file.length - TailSize.toNat)) := by
  have e1 : HeadSize.toNat = 102400 := by
    unfold HeadSize; rfl
  have e2 : TailSize.toNat = 51200 := by
    unfold TailSize; rfl
  have hH : HeadSize = 102400 := by
    unfold HeadSize; rfl
  have hT : TailSize = 51200 := by
    unfold TailSize; rfl
  by_cases hsmall : (file.length : Int) ≤ HeadSize
  · rw [generateArticle_calls_small ErrNotFound Select Render file hsel h1 hsmall]
    constructor
    · intro _ c hc
      simp only [List.mem_cons, List.mem_singleton, List.not_mem_nil, or_false] at hc
      rcases hc with rfl | rfl <;> simp [Call.isTailSelect]
    · intro tail ht
      simp at ht
  · by_cases hmid : (file.length : Int) ≤ HeadSize + TailSize
    · rw [generateArticle_calls_middle ErrNotFound Select Render file hsel (by omega) hmid]
      constructor
      · intro _ c hc
        simp only [List.mem_cons, List.mem_singleton, List.not_mem_nil, or_false] at hc
        rcases hc with rfl | rfl | rfl <;> simp [Call.isTailSelect]
      · intro tail ht
        simp at ht
    · have hlarge : HeadSize + TailSize < (file.length : Int) := by omega
      rw [generateArticle_calls_large ErrNotFound Select Render file hsel hlarge]
      constructor
      · intro h
        exact absurd h hmid
      · intro tail ht
        have htail : tail = file.drop (file.length - TailSize.toNat) := by
          cases hr : Render true (List.drop (file.length - TailSize.toNat) file) <;>
            rw [hr] at ht <;> simpa using ht
        refine ⟨by omega, htail, ?_, ?_⟩
        · intro head hh
          cases hr : Render true (List.drop (file.length - TailSize.toNat) file) with
          | error e => rw [hr] at hh; simp at hh
          | ok b => rw [hr] at hh; simp at hh; exact hh
        · refine ⟨(file.drop HeadSize.toNat).take (file.length - TailSize.toNat - HeadSize.toNat),
            ?_, ?_⟩
          · intro hnil
            have hl := congrArg List.length hnil
            simp only [List.length_take, List.length_drop, List.length_nil, e1, e2] at hl
            omega
          · have hsum : file.length - TailSize.toNat =
                HeadSize.toNat + (file.length - TailSize.toNat - HeadSize.toNat) := by
              rw [e1, e2]; omega
            have hd : file.drop (file.length - TailSize.toNat) =
                (file.drop HeadSize.toNat).drop (file.length - TailSize.toNat - HeadSize.toNat) := by
              rw [List.drop_drop]
              congr 1
            rw [hd, List.append_assoc, List.take_append_drop, List.take_append_drop]

/-- C3. Large file: a fetcher serving a fixed file of `F > HeadSize + TailSize`
bytes, with both renders succeeding, makes `generateArticle` issue exactly one
head fetch and one tail fetch `Select(Tail, -TailSize, TailSize)`, no
exact-range fetch, render the tail then the head, and return an article with
`IsPartial = IsTruncated = true`. -/
theorem generateArticle_large_file {ε : Type} (ErrNotFound : ε)
    (Select : SelectMethod → Int → Int → Except ε ArticlePart)
    (Render : Bool → List Byte → Except ε Rendered) (file : List Byte)
    (outTail outHead : Rendered)
    (hsel : HonoursRangeContract Select file)
    (hF : HeadSize + TailSize < (file.length : Int))
    (hrt : Render true (file.drop (file.length - TailSize.toNat)) = .ok outTail)
    (hrh : Render false (file.take HeadSize.toNat) = .ok outHead) :
    generateArticle ErrNotFound Select Render =
      ([Call.select .SelectHead 0 HeadSize, Call.select .SelectTail (-TailSize) TailSize,
        Call.render true (file.drop (file.length - TailSize.toNat)),
        Call.render false (file.take HeadSize.toNat)],
       .ok { ParsedTitle := outHead.ParsedTitle, PreviewContent := outHead.PreviewContent,
             ContentHtml := outHead.Bytes, ContentTailHtml := outTail.Bytes,
             IsPartial := true, IsTruncated := true, IsValid := true }) := by
  have hlen : 153600 < file.length := by
    unfold HeadSize TailSize at hF; omega
  have hT : TailSize ≤ (file.length : Int) := by
    unfold TailSize; omega
  have hnot : ¬ ((file.length : Int) > HeadSize ∧ (file.length : Int) ≤ HeadSize + TailSize) := by
    intro h; omega
  have e1 : HeadSize.toNat = 102400 := by
    unfold HeadSize; rfl
  have e2 : TailSize.toNat = 51200 := by
    unfold TailSize; rfl
  have hhead : (List.take HeadSize.toNat file).length = HeadSize.toNat := by
    simp only [List.length_take, e1]; omega
  have htail : (List.drop (file.length - TailSize.toNat) file).length = TailSize.toNat := by
    simp only [List.length_drop, e2]; omega
  have hpart : ((HeadSize.toNat : Nat) : Int) < (file.length : Int) := by omega
  have hz1 : HeadSize.toNat ≠ 0 := by omega
  have hz2 : TailSize.toNat > 0 := by omega
  unfold generateArticle
  rw [hsel .SelectHead]
  simp only [fileFetcher, requestedBytes_head]
  rw [if_neg hnot]
  unfold finishArticle
  simp only [hhead, hz1, if_false, hpart, decide_True, if_true]
  rw [hsel .SelectTail]
  unfold fileFetcher
  rw [requestedBytes_tail file hT]
  dsimp only
  rw [if_pos (by rw [htail]; exact hz2), hrt]
  simp [renderHead, hrh, Article.zero]

/-- C3, at a file of 153601 bytes served by `fileFetcher` and rendered by
`sampleRender`. -/
theorem generateArticle_large_file_witness :
    generateArticle () (fileFetcher (sampleFile 153601)) sampleRender =
      ([Call.select .SelectHead 0 HeadSize, Call.select .SelectTail (-TailSize) TailSize,
        Call.render true ((sampleFile 153601).drop ((sampleFile 153601).length - TailSize.toNat)),
        Call.render false ((sampleFile 153601).take HeadSize.toNat)],
       .ok { ParsedTitle := sampleHeadOut.ParsedTitle,
             PreviewContent := sampleHeadOut.PreviewContent,
             ContentHtml := sampleHeadOut.Bytes, ContentTailHtml := sampleTailOut.Bytes,
             IsPartial := true, IsTruncated := true, IsValid := true }) :=
  generateArticle_large_file () (fileFetcher (sampleFile 153601)) sampleRender
    (sampleFile 153601) sampleTailOut sampleHeadOut (fileFetcher_honours _)
    (by rw [sampleFile_length]; decide) rfl rfl

/-- C2, at a file of 153601 bytes served by `fileFetcher` and rendered by
`sampleRender`. -/
theorem generateArticle_windows_disjoint_witness :
    ((((sampleFile 153601).length : Int) ≤ HeadSize + TailSize →
      ∀ c ∈ (generateArticle () (fileFetcher (sampleFile 153601)) sampleRender).1,
        c.isTailSelect = false ∧ ∀ tail, c ≠ Call.render true tail) ∧
    (∀ tail, Call.render true tail ∈
        (generateArticle () (fileFetcher (sampleFile 153601)) sampleRender).1 →
      HeadSize < ((sampleFile 153601).length : Int) - TailSize ∧
      tail = (sampleFile 153601).drop ((sampleFile 153601).length - TailSize.toNat) ∧
      (∀ head, Call.render false head ∈
          (generateArticle () (fileFetcher (sampleFile 153601)) sampleRender).1 →
        head = (sampleFile 153601).take HeadSize.toNat) ∧
      ∃ mid, mid ≠ [] ∧
        sampleFile 153601 = (sampleFile 153601).take HeadSize.toNat ++ mid ++
          (sampleFile 153601).drop ((sampleFile 153601).length - TailSize.toNat))) :=
  generateArticle_windows_disjoint () (fileFetcher (sampleFile 153601)) sampleRender
    (sampleFile 153601) (fileFetcher_honours _) (by rw [sampleFile_length]; decide)

/-- C4, as stated, fails: the head fetch of `shortReadFetcher` succeeds with
non-empty content and reports the total size `10 ≤ HeadSize`, yet the fetched
length 5 is below it, so a tail fetch follows and the article has
`IsPartial = IsTruncated = true`. -/
theorem generateArticle_small_file_counterexample :
    shortReadFetcher .SelectHead 0 HeadSize =
        .ok { Content := [65, 65, 65, 65, 65], FileSize := 10, Length := 5 } ∧
      (10 : Int) ≤ HeadSize ∧
      generateArticle () shortReadFetcher sampleRender =
        ([Call.select .SelectHead 0 HeadSize, Call.select .SelectTail (-TailSize) TailSize,
          Call.render true [66, 66], Call.render false [65, 65, 65, 65, 65]],
         .ok { ParsedTitle := [84], PreviewContent := [80], ContentHtml := [104],
               ContentTailHtml := [116], IsPartial := true, IsTruncated := true,
               IsValid := true }) := by
  refine ⟨rfl, by decide, ?_⟩
  simp [generateArticle, shortReadFetcher, finishArticle, renderHead, sampleRender,
    sampleTailOut, sampleHeadOut, Article.zero, HeadSize, TailSize]

/-- C4, amended. Small file: when the head fetch succeeds with non-empty
content, reports a total size `F ≤ HeadSize` and a fetched length not below
`F`, the head fetch is the only fetch, the head content is rendered once, and
the result is the renderer's error or an article with
`IsPartial = IsTruncated = false` and no tail content. -/
theorem generateArticle_small_file {ε : Type} (ErrNotFound : ε)
    (Select : SelectMethod → Int → Int → Except ε ArticlePart)
    (Render : Bool → List Byte → Except ε Rendered) (p : ArticlePart)
    (hhead : Select .SelectHead 0 HeadSize = .ok p)
    (hne : p.Content ≠ [])
    (hF : p.FileSize ≤ HeadSize)
    (hlen : p.FileSize ≤ p.Length) :
    generateArticle ErrNotFound Select Render =
      ([Call.select .SelectHead 0 HeadSize, Call.render false p.Content],
       match Render false p.Content with
       | .ok buf =>
         .ok { ParsedTitle := buf.ParsedTitle, PreviewContent := buf.PreviewContent,
               ContentHtml := buf.Bytes, ContentTailHtml := [],
               IsPartial := false, IsTruncated := false, IsValid := true }
       | .error err => .error err) := by
  have hnot : ¬ (p.FileSize > HeadSize ∧ p.FileSize ≤ HeadSize + TailSize) := by
    intro h; omega
  have hz : p.Content.length ≠ 0 := by
    intro h; exact hne (List.length_eq_zero.mp h)
  have hnp : ¬ (p.Length < p.FileSize) := by omega
  unfold generateArticle
  rw [hhead]
  dsimp only
  rw [if_neg hnot]
  unfold finishArticle
  simp only [hz, if_false, hnp, decide_False, Bool.false_eq_true]
  unfold renderHead
  cases Render false p.Content <;> simp [Article.zero]

/-- C4 (amended), at a 3-byte file served by `fileFetcher` and rendered by
`sampleRender`. -/
theorem generateArticle_small_file_witness :
    generateArticle () (fileFetcher [72, 105, 10]) sampleRender =
      ([Call.select .SelectHead 0 HeadSize, Call.render false [72, 105, 10]],
       .ok { ParsedTitle := [84], PreviewContent := [80], ContentHtml := [104],
             ContentTailHtml := [], IsPartial := false, IsTruncated := false,
             IsValid := true }) :=
  generateArticle_small_file () (fileFetcher [72, 105, 10]) sampleRender
    { Content := [72, 105, 10], FileSize := 3, Length := 3 }
    (by simp [fileFetcher, requestedBytes, HeadSize])
    (by simp) (by decide) (by decide)

/-- C5, as stated, fails: the head fetch of `emptyHeadFetcher` succeeds with
empty content, but it reports a total size in the middle window, so the
exact-range fetch replaces it; that content is not empty, the renderer is
invoked and an article is returned instead of `ErrNotFound`. -/
theorem generateArticle_empty_head_counterexample :
    emptyHeadFetcher .SelectHead 0 HeadSize =
        .ok { Content := [], FileSize := 102401, Length := 0 } ∧
      generateArticle () emptyHeadFetcher sampleRender =
        ([Call.select .SelectHead 0 HeadSize, Call.select .SelectPart 0 102401,
          Call.render false [65]],
         .ok { ParsedTitle := [84], PreviewContent := [80], ContentHtml := [104],
               ContentTailHtml := [], IsPartial := false, IsTruncated := false,
               IsValid := true }) := by
  refine ⟨rfl, ?_⟩
  simp [generateArticle, emptyHeadFetcher, finishArticle, renderHead, sampleRender,
    sampleHeadOut, Article.zero, HeadSize, TailSize]

/-- C5, amended. When the content left by the fetch phase is empty, that is
the head fetch's content if the reported total size is outside
`(HeadSize, HeadSize + TailSize]`, and otherwise the content of a successful
exact-range refetch, `generateArticle` returns `ErrNotFound` and no artifact,
and the calls it made are fetches only: no tail fetch, no render. -/
theorem generateArticle_empty_content {ε : Type} (ErrNotFound : ε)
    (Select : SelectMethod → Int → Int → Except ε ArticlePart)
    (Render : Bool → List Byte → Except ε Rendered) (p : ArticlePart)
    (hhead : Select .SelectHead 0 HeadSize = .ok p)
    (hempty :
      (¬ (p.FileSize > HeadSize ∧ p.FileSize ≤ HeadSize + TailSize) ∧ p.Content = []) ∨
      ((p.FileSize > HeadSize ∧ p.FileSize ≤ HeadSize + TailSize) ∧
        ∃ p2, Select .SelectPart 0 p.FileSize = .ok p2 ∧ p2.Content = [])) :
    (generateArticle ErrNotFound Select Render).2 = .error ErrNotFound ∧
    (∀ c ∈ (generateArticle ErrNotFound Select Render).1,
      c.isRender = false ∧ c.isTailSelect = false) ∧
    ((generateArticle ErrNotFound Select Render).1 = [Call.select .SelectHead 0 HeadSize] ∨
     (generateArticle ErrNotFound Select Render).1 =
       [Call.select .SelectHead 0 HeadSize, Call.select .SelectPart 0 p.FileSize]) := by
  rcases hempty with ⟨hnot, hc⟩ | ⟨hin, p2, hpart, hc⟩
  · have e : generateArticle ErrNotFound Select Render =
        ([Call.select .SelectHead 0 HeadSize], .error ErrNotFound) := by
      unfold generateArticle
      rw [hhead]
      dsimp only
      rw [if_neg hnot]
      unfold finishArticle
      simp [hc]
    rw [e]
    simp [Call.isRender, Call.isTailSelect]
  · have e : generateArticle ErrNotFound Select Render =
        ([Call.select .SelectHead 0 HeadSize, Call.select .SelectPart 0 p.FileSize],
          .error ErrNotFound) := by
      unfold generateArticle
      rw [hhead]
      dsimp only
      rw [if_pos hin, hpart]
      dsimp only
      unfold finishArticle
      simp [hc]
    rw [e]
    simp [Call.isRender, Call.isTailSelect]

/-- C5 (amended), at the empty file served by `fileFetcher`: the head fetch
returns no bytes and reports the total size 0. -/
theorem generateArticle_empty_content_witness :
    (generateArticle () (fileFetcher []) sampleRender).2 = .error () ∧
    (∀ c ∈ (generateArticle () (fileFetcher []) sampleRender).1,
      c.isRender = false ∧ c.isTailSelect = false) ∧
    ((generateArticle () (fileFetcher []) sampleRender).1 =
        [Call.select .SelectHead 0 HeadSize] ∨
     (generateArticle () (fileFetcher []) sampleRender).1 =
       [Call.select .SelectHead 0 HeadSize,
        Call.select .SelectPart 0 (ArticlePart.mk [] 0 0).FileSize]) :=
  generateArticle_empty_content () (fileFetcher []) sampleRender
    { Content := [], FileSize := 0, Length := 0 }
    (by simp [fileFetcher, requestedBytes])
    (Or.inl ⟨by decide, rfl⟩)

/-- A value in the 64-bit range is left alone by `wrap64`. -/
theorem wrap64_of_isInt64 (x : Int) (h : IsInt64 x) : wrap64 x = x := by
  unfold IsInt64 at h
  unfold wrap64
  have e63 : (2 : Int) ^ 63 = 9223372036854775808 := by norm_num
  have e64 : (2 : Int) ^ 64 = 18446744073709551616 := by norm_num
  rw [e63] at h ⊢
  rw [e64]
  omega

/-- The slice `content[:k]` for `k` within the length. -/
theorem sliceTo_of_le (content : List Byte) (k : Nat) (h : k ≤ content.length) :
    sliceTo content (k : Int) = some (content.take k) := by
  unfold sliceTo
  have h2 : (0 : Int) ≤ (k : Int) ∧ (k : Int) ≤ (content.length : Int) := by omega
  rw [if_pos h2]
  simp

/-- What the backward scan does from counter `k` (index `k - 1`) down: it
either stops at the greatest index `j < k` with `lo ≤ j` that holds a newline,
all indices between holding none, and returns `content[:j+1]`; or it meets no
newline at any index `i < k` with `lo ≤ i` and falls through to `after`. -/
theorem scanBack_spec (content : List Byte) (lo : Int) (after : Option (List Byte)) :
    ∀ k : Nat, k ≤ content.length →
      (∃ j : Nat, j < k ∧ lo ≤ (j : Int) ∧ content[j]? = some 10 ∧
          (∀ i : Nat, j < i → i < k → content[i]? ≠ some 10) ∧
          scanBack content lo after k = some (content.take (j + 1))) ∨
      ((∀ i : Nat, i < k → lo ≤ (i : Int) → content[i]? ≠ some 10) ∧
          scanBack content lo after k = after) := by
  intro k
  induction k with
  | zero =>
    intro _
    right
    exact ⟨fun i hi => absurd hi (Nat.not_lt_zero i), rfl⟩
  | succ k ih =>
    intro hk
    have hklt : k < content.length := hk
    by_cases hlo : (k : Int) ≥ lo
    · have hget : content[k]? = some content[k] := List.getElem?_eq_getElem hklt
      by_cases hb : content[k] = 10
      · left
        refine ⟨k, Nat.lt_succ_self k, hlo, by rw [hget, hb], ?_, ?_⟩
        · intro i h1 h2
          omega
        · simp only [scanBack, hlo, if_true, hget, hb]
          exact sliceTo_of_le content (k + 1) hk
      · have hstep : scanBack content lo after (k + 1) = scanBack content lo after k := by
          simp only [scanBack, hlo, if_true, hget, hb, if_false]
        have hnk : content[k]? ≠ some 10 := by
          rw [hget]
          intro h
          exact hb (Option.some.inj h)
        rcases ih (Nat.le_of_lt hklt) with ⟨j, hj, hjlo, hjn, hjmax, hres⟩ | ⟨hnone, hres⟩
        · left
          refine ⟨j, Nat.lt_succ_of_lt hj, hjlo, hjn, ?_, by rw [hstep, hres]⟩
          intro i h1 h2
          by_cases hik : i = k
          · rw [hik]; exact hnk
          · exact hjmax i h1 (by omega)
        · right
          refine ⟨?_, by rw [hstep, hres]⟩
          intro i h1 h2
          by_cases hik : i = k
          · rw [hik]; exact hnk
          · exact hnone i (by omega) h2
    · right
      refine ⟨?_, ?_⟩
      · intro i h1 h2
        omega
      · simp only [scanBack, hlo, if_false]

/-- C6. Newline in the window: for Go `int`s `size`, `maxScan` with
`len(content) > size`, if some index `i` with
`max(0, size - maxScan) ≤ i ≤ size - 1` holds a newline, the result is
`content[0 .. j+1)` for the greatest such index `j`: it ends in a newline, has
length `j + 1 ≤ size`, and no newline lies at an index in `(j, size - 1]`. -/
theorem truncateLargeContent_newline_in_window (content : List Byte) (size maxScan : Int)
    (hs : IsInt64 size) (hm : IsInt64 maxScan)
    (hlen : (content.length : Int) > size)
    (hex : ∃ i : Nat, max 0 (size - maxScan) ≤ (i : Int) ∧ (i : Int) ≤ size - 1 ∧
      content[i]? = some 10) :
    ∃ j : Nat, max 0 (size - maxScan) ≤ (j : Int) ∧ (j : Int) ≤ size - 1 ∧
      content[j]? = some 10 ∧
      (∀ i : Nat, j < i → (i : Int) ≤ size - 1 → content[i]? ≠ some 10) ∧
      truncateLargeContent content size maxScan = some (content.take (j + 1)) ∧
      (content.take (j + 1)).getLast? = some 10 ∧
      (content.take (j + 1)).length = j + 1 ∧
      ((j : Int) + 1 ≤ size) := by
  obtain ⟨i, hi1, hi2, hi3⟩ := hex
  have hi0 : size - maxScan ≤ (i : Int) := le_trans (le_max_right _ _) hi1
  have e63 : (2 : Int) ^ 63 = 9223372036854775808 := by norm_num
  have hs2 := hs
  have hm2 := hm
  unfold IsInt64 at hs2 hm2
  rw [e63] at hs2 hm2
  have hw1 : wrap64 (size - 1) = size - 1 := by
    apply wrap64_of_isInt64
    unfold IsInt64
    rw [e63]
    omega
  have hw2 : wrap64 (size - maxScan) = size - maxScan := by
    apply wrap64_of_isInt64
    unfold IsInt64
    rw [e63]
    omega
  have hk : (size - 1 + 1).toNat ≤ content.length := by omega
  have hrun : truncateLargeContent content size maxScan =
      scanBack content (size - maxScan) (sliceTo content size) (size - 1 + 1).toNat := by
    unfold truncateLargeContent
    rw [if_neg (by omega), hw1, hw2]
  rcases scanBack_spec content (size - maxScan) (sliceTo content size) _ hk with
    ⟨j, hj, hjlo, hjn, hjmax, hres⟩ | ⟨hnone, _⟩
  · refine ⟨j, max_le (by omega) hjlo, by omega, hjn, ?_, by rw [hrun, hres], ?_, ?_, by omega⟩
    · intro i2 h1 h2
      exact hjmax i2 h1 (by omega)
    · rw [List.take_succ, hjn]
      simp
    · rw [List.length_take]
      omega
  · exact absurd hi3 (hnone i (by omega) hi0)

/-- C6, at `content = "A\nB\nCD"`, `size = 5`, `maxScan = 4`: the cut falls
after the newline at index 3. -/
theorem truncateLargeContent_newline_in_window_witness :
    ∃ j : Nat, max 0 ((5 : Int) - 4) ≤ (j : Int) ∧ (j : Int) ≤ (5 : Int) - 1 ∧
      [65, 10, 66, 10, 67, 68][j]? = some 10 ∧
      (∀ i : Nat, j < i → (i : Int) ≤ (5 : Int) - 1 →
        [65, 10, 66, 10, 67, 68][i]? ≠ some 10) ∧
      truncateLargeContent [65, 10, 66, 10, 67, 68] 5 4 =
        some (([65, 10, 66, 10, 67, 68] : List Byte).take (j + 1)) ∧
      (([65, 10, 66, 10, 67, 68] : List Byte).take (j + 1)).getLast? = some 10 ∧
      (([65, 10, 66, 10, 67, 68] : List Byte).take (j + 1)).length = j + 1 ∧
      ((j : Int) + 1 ≤ 5) :=
  truncateLargeContent_newline_in_window [65, 10, 66, 10, 67, 68] 5 4
    (by decide) (by decide) (by decide) ⟨1, by decide, by decide, by decide⟩

/-- C7, at the failing input: with `maxScan` the least 64-bit integer the
subtraction `size - maxScan` wraps around to a negative bound, the scan runs
over the whole of `[0, size - 1]` and cuts after the newline at index 0, where
the window `[max(0, size - maxScan), size - 1]` of the claim is empty and the
first `size = 2` bytes were due. -/
theorem truncateLargeContent_maxScan_overflow :
    IsInt64 2 ∧ IsInt64 (-9223372036854775808) ∧
      (∀ i : Nat, max 0 ((2 : Int) - (-9223372036854775808)) ≤ (i : Int) →
        (i : Int) ≤ (2 : Int) - 1 → ([10, 65, 66] : List Byte)[i]? ≠ some 10) ∧
      wrap64 (2 - (-9223372036854775808)) = -9223372036854775806 ∧
      truncateLargeContent [10, 65, 66] 2 (-9223372036854775808) = some [10] ∧
      ([10, 65, 66] : List Byte).take 2 = [10, 65] := by
  refine ⟨by decide, by decide, ?_, by decide, by decide, rfl⟩
  intro i h1 h2
  have h3 : ((2 : Int) - (-9223372036854775808)) ≤ (i : Int) := le_trans (le_max_right _ _) h1
  omega

/-- No newline in the window, no overflow: for Go `int`s `size ≥ 0` and
`maxScan` whose difference `size - maxScan` stays in the 64-bit range, with
`len(content) > size`, if no index of the window
`max(0, size - maxScan) ≤ i ≤ size - 1` holds a newline the result is the first
`size` bytes, and nothing is indexed out of bounds. -/
theorem truncateLargeContent_no_newline_in_window (content : List Byte) (size maxScan : Int)
    (hs : IsInt64 size) (hs0 : 0 ≤ size) (hd : IsInt64 (size - maxScan))
    (hlen : (content.length : Int) > size)
    (hno : ∀ i : Nat, max 0 (size - maxScan) ≤ (i : Int) → (i : Int) ≤ size - 1 →
      content[i]? ≠ some 10) :
    truncateLargeContent content size maxScan = some (content.take size.toNat) ∧
    (content.take size.toNat).length = size.toNat := by
  have e63 : (2 : Int) ^ 63 = 9223372036854775808 := by norm_num
  have hs2 := hs
  unfold IsInt64 at hs2
  rw [e63] at hs2
  have hw2 : wrap64 (size - maxScan) = size - maxScan := wrap64_of_isInt64 _ hd
  have hw1 : wrap64 (size - 1) = size - 1 := by
    by_cases h0 : size = 0
    · rw [h0]; decide
    · apply wrap64_of_isInt64
      unfold IsInt64
      rw [e63]
      omega
  have hk : (size - 1 + 1).toNat ≤ content.length := by omega
  have hafter : sliceTo content size = some (content.take size.toNat) := by
    have h := sliceTo_of_le content size.toNat (by omega)
    rwa [Int.toNat_of_nonneg hs0] at h
  have hrun : truncateLargeContent content size maxScan =
      scanBack content (size - maxScan) (sliceTo content size) (size - 1 + 1).toNat := by
    unfold truncateLargeContent
    rw [if_neg (by omega), hw1, hw2]
  refine ⟨?_, by rw [List.length_take]; omega⟩
  rcases scanBack_spec content (size - maxScan) (sliceTo content size) _ hk with
    ⟨j, hj, hjlo, hjn, _, _⟩ | ⟨_, hres⟩
  · exact absurd hjn (hno j (max_le (by omega) hjlo) (by omega))
  · rw [hrun, hres, hafter]

/-- C8. Fitting content is left unchanged: when `len(content) ≤ size` the
result is `content` itself, whatever `maxScan` is and wherever newlines
occur. -/
theorem truncateLargeContent_fits (content : List Byte) (size maxScan : Int)
    (hlen : (content.length : Int) ≤ size) :
    truncateLargeContent content size maxScan = some content := by
  unfold truncateLargeContent
  rw [if_pos hlen]

/-- C8, at `content = "A\nB"` with `size = 3` and `maxScan = 2`. -/
theorem truncateLargeContent_fits_witness :
    truncateLargeContent [65, 10, 66] 3 2 = some [65, 10, 66] :=
  truncateLargeContent_fits [65, 10, 66] 3 2 (by decide)

/-- At most one handler is invoked per URL. -/
theorem dispatchFrom_calls_le {ε : Type} (urlBytes : List Byte) :
    ∀ (patterns : List (UrlPattern ε)) (idx : Nat),
      (dispatchFrom urlBytes patterns idx).2.length ≤ 1 := by
  intro patterns
  induction patterns with
  | nil => intro idx; simp [dispatchFrom]
  | cons p rest ih =>
    intro idx
    unfold dispatchFrom
    cases hp : p.Pattern urlBytes with
    | none => exact ih (idx + 1)
    | some m =>
      cases hh : p.Handler urlBytes m <;> simp [hh]

/-- No pattern matches: no Components and no handler invocation. -/
theorem dispatchFrom_no_match {ε : Type} (urlBytes : List Byte) :
    ∀ (patterns : List (UrlPattern ε)) (idx : Nat),
      (∀ p ∈ patterns, p.Pattern urlBytes = none) →
      dispatchFrom urlBytes patterns idx = ([], []) := by
  intro patterns
  induction patterns with
  | nil => intro idx _; rfl
  | cons p rest ih =>
    intro idx h
    unfold dispatchFrom
    rw [h p (List.mem_cons_self p rest)]
    exact ih (idx + 1) (fun q hq => h q (List.mem_cons_of_mem p hq))

/-- The first matching pattern alone decides: its handler is the one invoked,
and the Components are its output, or none when it fails. -/
theorem dispatchFrom_first_match {ε : Type} (urlBytes : List Byte) :
    ∀ (patterns : List (UrlPattern ε)) (idx k : Nat) (p : UrlPattern ε) (m : MatchIndices),
      FirstMatch patterns urlBytes k p m →
      dispatchFrom urlBytes patterns idx = (componentsOf (p.Handler urlBytes m), [idx + k]) := by
  intro patterns
  induction patterns with
  | nil =>
    intro idx k p m h
    have h1 := h.1
    simp at h1
  | cons q rest ih =>
    intro idx k p m h
    obtain ⟨h1, h2, h3⟩ := h
    cases k with
    | zero =>
      have hq : q = p := by simpa using h1
      subst hq
      unfold dispatchFrom
      rw [h2]
      cases hh : q.Handler urlBytes m <;> simp [hh, componentsOf]
    | succ k =>
      have hq : q.Pattern urlBytes = none := h3 0 q (Nat.succ_pos k) (by simp)
      have hrest : FirstMatch rest urlBytes k p m := by
        refine ⟨by simpa using h1, h2, ?_⟩
        intro i r hi hr
        exact h3 (i + 1) r (Nat.succ_lt_succ hi) (by simpa using hr)
      unfold dispatchFrom
      rw [hq]
      dsimp only
      rw [ih (idx + 1) k p m hrest]
      congr 2
      omega

/-- Pattern lists that differ only in their handlers on the URL `bad` dispatch
every other URL alike. -/
theorem dispatchFrom_agree {ε : Type} (bad urlBytes : List Byte) (hne : urlBytes ≠ bad) :
    ∀ (patterns patterns2 : List (UrlPattern ε)) (idx : Nat),
      AgreeOffUrl bad patterns patterns2 →
      dispatchFrom urlBytes patterns idx = dispatchFrom urlBytes patterns2 idx := by
  intro patterns patterns2 idx h
  unfold AgreeOffUrl at h
  induction h generalizing idx with
  | nil => rfl
  | @cons p q rest rest2 hpq _ ih =>
    obtain ⟨hpat, hhand⟩ := hpq
    unfold dispatchFrom
    rw [← hpat]
    cases hp : p.Pattern urlBytes with
    | none => exact ih (idx + 1)
    | some m =>
      dsimp only
      rw [← hhand urlBytes m hne]

/-- The outer loop, on ranges inside the input, appends one span and one
invocation record per range, in order. -/
theorem findUrlLoop_eq {ε : Type} (patterns : List (UrlPattern ε)) (input : List Byte) :
    ∀ (ranges : List (Int × Int)) (rcs : List RichContent) (log : List (List Nat)),
      ValidRanges input ranges →
      findUrlLoop patterns input ranges rcs log =
        some (rcs ++ ranges.map (spanOf patterns input),
              log ++ ranges.map (callsOf patterns input)) := by
  intro ranges
  induction ranges with
  | nil => intro rcs log _; simp [findUrlLoop]
  | cons u us ih =>
    intro rcs log hv
    have hu := hv u (List.mem_cons_self u us)
    have hus : ValidRanges input us := fun w hw => hv w (List.mem_cons_of_mem u hw)
    unfold findUrlLoop
    unfold sliceRange
    rw [if_pos hu]
    dsimp only
    rw [ih _ _ hus]
    simp [spanOf, callsOf]

/-- The whole of `FindUrl` on ranges inside the input. -/
theorem FindUrl_eq {ε : Type} (FindAllUrlsIndex : List Byte → List (Int × Int))
    (patterns : List (UrlPattern ε)) (input : List Byte)
    (hvalid : ValidRanges input (FindAllUrlsIndex input)) :
    FindUrl FindAllUrlsIndex patterns input =
      some { rcs := (FindAllUrlsIndex input).map (spanOf patterns input),
             err := none,
             handlerCalls := (FindAllUrlsIndex input).map (callsOf patterns input) } := by
  unfold FindUrl
  rw [findUrlLoop_eq patterns input _ [] [] hvalid]
  simp

/-- C9. Dispatch is strict first-match-wins: for every candidate range `u`
handed out by the URL finder, the span keeps the URL text `input[u.1:u.2]`
verbatim, at most one handler is invoked, and the Components are decided by
the first pattern, in list order, whose matcher matches: that handler alone is
invoked, its output becomes the Components if it succeeds, the Components are
empty if it fails; when no pattern matches no handler is invoked and the
Components are empty. -/
theorem FindUrl_first_match_wins {ε : Type} (FindAllUrlsIndex : List Byte → List (Int × Int))
    (patterns : List (UrlPattern ε)) (input : List Byte)
    (hvalid : ValidRanges input (FindAllUrlsIndex input)) :
    ∃ res, FindUrl FindAllUrlsIndex patterns input = some res ∧
      ∀ (n : Nat) (u : Int × Int), (FindAllUrlsIndex input)[n]? = some u →
        ∃ rc calls, res.rcs[n]? = some rc ∧ res.handlerCalls[n]? = some calls ∧
          rc.UrlString = urlBytesAt input u ∧
          calls.length ≤ 1 ∧
          (∀ k p m, FirstMatch patterns (urlBytesAt input u) k p m →
            calls = [k] ∧
            (∀ c, p.Handler (urlBytesAt input u) m = .ok c → rc.Components = c) ∧
            (∀ e, p.Handler (urlBytesAt input u) m = .error e → rc.Components = [])) ∧
          ((∀ p ∈ patterns, p.Pattern (urlBytesAt input u) = none) →
            calls = [] ∧ rc.Components = []) := by
  refine ⟨_, FindUrl_eq FindAllUrlsIndex patterns input hvalid, ?_⟩
  intro n u hu
  refine ⟨spanOf patterns input u, callsOf patterns input u, ?_, ?_, rfl, ?_, ?_, ?_⟩
  · simp [List.getElem?_map, hu]
  · simp [List.getElem?_map, hu]
  · exact dispatchFrom_calls_le _ patterns 0
  · intro k p m hfirst
    have h := dispatchFrom_first_match (urlBytesAt input u) patterns 0 k p m hfirst
    have hc : callsOf patterns input u = [k] := by
      simp [callsOf, dispatchUrl, h]
    have hcomp : (spanOf patterns input u).Components =
        componentsOf (p.Handler (urlBytesAt input u) m) := by
      simp [spanOf, MakeRichContent, dispatchUrl, h]
    refine ⟨hc, ?_, ?_⟩
    · intro c hok
      rw [hcomp, hok]; rfl
    · intro e herr
      rw [hcomp, herr]; rfl
  · intro hnone
    have h := dispatchFrom_no_match (urlBytesAt input u) patterns 0 hnone
    constructor
    · simp [callsOf, dispatchUrl, h]
    · simp [spanOf, MakeRichContent, dispatchUrl, h]

/-- C9, on the text `ab cd` with the pattern list
`[neverMatches, failOn "ab", alwaysOk]`. -/
theorem FindUrl_first_match_wins_witness :
    ∃ res, FindUrl sampleFinder [neverMatches, failOn [97, 98], alwaysOk]
        [97, 98, 32, 99, 100] = some res ∧
      ∀ (n : Nat) (u : Int × Int), (sampleFinder [97, 98, 32, 99, 100])[n]? = some u →
        ∃ rc calls, res.rcs[n]? = some rc ∧ res.handlerCalls[n]? = some calls ∧
          rc.UrlString = urlBytesAt [97, 98, 32, 99, 100] u ∧
          calls.length ≤ 1 ∧
          (∀ k p m, FirstMatch [neverMatches, failOn [97, 98], alwaysOk]
              (urlBytesAt [97, 98, 32, 99, 100] u) k p m →
            calls = [k] ∧
            (∀ c, p.Handler (urlBytesAt [97, 98, 32, 99, 100] u) m = .ok c →
              rc.Components = c) ∧
            (∀ e, p.Handler (urlBytesAt [97, 98, 32, 99, 100] u) m = .error e →
              rc.Components = [])) ∧
          ((∀ p ∈ [neverMatches, failOn [97, 98], alwaysOk],
              p.Pattern (urlBytesAt [97, 98, 32, 99, 100] u) = none) →
            calls = [] ∧ rc.Components = []) :=
  FindUrl_first_match_wins sampleFinder [neverMatches, failOn [97, 98], alwaysOk]
    [97, 98, 32, 99, 100] (by simp [ValidRanges, sampleFinder])

/-- C10. `FindUrl` is fail-soft and order-preserving: on ranges inside the
input it returns no error and one span per candidate range, in the same order,
the `n`-th span carrying the `n`-th range's offsets and the text
`input[start:end]`; when the handler of the first matching pattern fails the
span has no Components; and for a pattern list that differs only in what its
handlers do on one URL `bad`, every span of another URL is the same. -/
theorem FindUrl_fail_soft {ε : Type} (FindAllUrlsIndex : List Byte → List (Int × Int))
    (patterns patterns2 : List (UrlPattern ε)) (input bad : List Byte)
    (hvalid : ValidRanges input (FindAllUrlsIndex input))
    (hagree : AgreeOffUrl bad patterns patterns2) :
    ∃ res res2, FindUrl FindAllUrlsIndex patterns input = some res ∧
      FindUrl FindAllUrlsIndex patterns2 input = some res2 ∧
      res.err = none ∧
      res.rcs.length = (FindAllUrlsIndex input).length ∧
      ∀ (n : Nat) (u : Int × Int), (FindAllUrlsIndex input)[n]? = some u →
        ∃ rc, res.rcs[n]? = some rc ∧
          rc.Pos = u.1 ∧ rc.End = u.2 ∧ rc.UrlString = urlBytesAt input u ∧
          (∀ k p m e, FirstMatch patterns (urlBytesAt input u) k p m →
            p.Handler (urlBytesAt input u) m = .error e → rc.Components = []) ∧
          (urlBytesAt input u ≠ bad → res2.rcs[n]? = some rc) := by
  refine ⟨_, _, FindUrl_eq FindAllUrlsIndex patterns input hvalid,
    FindUrl_eq FindAllUrlsIndex patterns2 input hvalid, rfl, by simp, ?_⟩
  intro n u hu
  refine ⟨spanOf patterns input u, by simp [List.getElem?_map, hu], rfl, rfl, rfl, ?_, ?_⟩
  · intro k p m e hfirst herr
    have h := dispatchFrom_first_match (urlBytesAt input u) patterns 0 k p m hfirst
    simp [spanOf, MakeRichContent, dispatchUrl, h, herr, componentsOf]
  · intro hne
    have h := dispatchFrom_agree bad (urlBytesAt input u) hne patterns patterns2 0 hagree
    simp [List.getElem?_map, hu, spanOf, dispatchUrl, h]

/-- C10, on the text `ab cd` with the handler of `failOn "ab"` failing on the
first URL, against `alwaysOk`, which succeeds there. -/
theorem FindUrl_fail_soft_witness :
    ∃ res res2, FindUrl sampleFinder [failOn [97, 98]] [97, 98, 32, 99, 100] = some res ∧
      FindUrl sampleFinder [alwaysOk] [97, 98, 32, 99, 100] = some res2 ∧
      res.err = none ∧
      res.rcs.length = (sampleFinder [97, 98, 32, 99, 100]).length ∧
      ∀ (n : Nat) (u : Int × Int), (sampleFinder [97, 98, 32, 99, 100])[n]? = some u →
        ∃ rc, res.rcs[n]? = some rc ∧
          rc.Pos = u.1 ∧ rc.End = u.2 ∧ rc.UrlString = urlBytesAt [97, 98, 32, 99, 100] u ∧
          (∀ k p m e, FirstMatch [failOn [97, 98]] (urlBytesAt [97, 98, 32, 99, 100] u) k p m →
            p.Handler (urlBytesAt [97, 98, 32, 99, 100] u) m = .error e →
            rc.Components = []) ∧
          (urlBytesAt [97, 98, 32, 99, 100] u ≠ [97, 98] → res2.rcs[n]? = some rc) :=
  FindUrl_fail_soft sampleFinder [failOn [97, 98]] [alwaysOk] [97, 98, 32, 99, 100] [97, 98]
    (by simp [ValidRanges, sampleFinder])
    (List.Forall₂.cons
      ⟨rfl, fun u _ hne => by simp [failOn, alwaysOk, hne]⟩
      List.Forall₂.nil)

/-- What `pageLinks` leaves alone and what it sets. -/
theorem pageLinks_fields {α : Type} (b : BbsIndex α) (page lastPageNo : Int) :
    (pageLinks b page lastPageNo).Board = b.Board ∧
    (pageLinks b page lastPageNo).IsValid = b.IsValid ∧
    (pageLinks b page lastPageNo).TotalPage = b.TotalPage ∧
    (pageLinks b page lastPageNo).Articles = b.Articles ∧
    (pageLinks b page lastPageNo).Bottoms = b.Bottoms ∧
    (pageLinks b page lastPageNo).HasPrevPage = (if page > 1 then true else b.HasPrevPage) ∧
    (pageLinks b page lastPageNo).PrevPage = (if page > 1 then page - 1 else b.PrevPage) ∧
    (pageLinks b page lastPageNo).HasNextPage =
      (if page < lastPageNo then true else b.HasNextPage) ∧
    (pageLinks b page lastPageNo).NextPage =
      (if page < lastPageNo then page + 1 else b.NextPage) := by
  unfold pageLinks
  by_cases h1 : page > 1 <;> by_cases h2 : page < lastPageNo <;> simp [h1, h2]

/-- Once the article count is fetched and the page selected, generation
continues with the resolved page and the selected pager. -/
theorem generateBbsIndex_selected {π κ α ε : Type} (ops : BbsOps π κ α ε)
    (r : BbsIndexRequest) (count : Int)
    (hcount : ops.GetArticleCount r.Brd.Bid = .ok count)
    (hsel : r.Page ≠ 0 → (ops.SetPageNo (ops.NewPaging EntryPerPage count) r.Page).2 = none) :
    generateBbsIndex ops r =
      indexAfterPaging ops r (resolvedPage ops r count) (selectedPaging ops r count)
        [BbsCall.getArticleCount r.Brd.Bid, BbsCall.setPageNo (resolvedPage ops r count)] := by
  unfold generateBbsIndex selectedPaging resolvedPage
  rw [hcount]
  by_cases h0 : r.Page = 0
  · simp only [h0, if_true]
  · simp only [h0, if_false, hsel h0]

/-- The calls and the result of `indexAfterPaging` when the article list fetch
succeeds. -/
theorem indexAfterPaging_listed {π κ α ε : Type} (ops : BbsOps π κ α ε)
    (r : BbsIndexRequest) (page : Int) (paging : π) (tr : List (BbsCall κ))
    (articles : List α)
    (hlist : ops.GetArticleList r.Brd.Bid (ops.Cursor paging) = .ok articles) :
    (indexAfterPaging ops r page paging tr).1 =
      tr ++ [BbsCall.getArticleList r.Brd.Bid (ops.Cursor paging)] ++
        (if page = ops.LastPageNo paging then [BbsCall.getBottomList r.Brd.Bid] else []) ∧
    (∀ b, (indexAfterPaging ops r page paging tr).2 = .ok b →
      b.Board = r.Brd ∧ b.IsValid = true ∧ b.TotalPage = ops.LastPageNo paging ∧
      b.Articles = articles ∧
      (page ≠ ops.LastPageNo paging → b.Bottoms = []) ∧
      (∀ bottoms, ops.GetBottomList r.Brd.Bid = .ok bottoms →
        page = ops.LastPageNo paging → b.Bottoms = bottoms) ∧
      b.HasPrevPage = decide (page > 1) ∧
      b.PrevPage = (if page > 1 then page - 1 else 0) ∧
      b.HasNextPage = decide (page < ops.LastPageNo paging) ∧
      b.NextPage = (if page < ops.LastPageNo paging then page + 1 else 0)) ∧
    ((page = ops.LastPageNo paging → ∃ bottoms, ops.GetBottomList r.Brd.Bid = .ok bottoms) →
      ∃ b, (indexAfterPaging ops r page paging tr).2 = .ok b) := by
  unfold indexAfterPaging
  rw [hlist]
  by_cases hlast : page = ops.LastPageNo paging
  · simp only [if_pos hlast]
    cases hb : ops.GetBottomList r.Brd.Bid with
    | error e =>
      refine ⟨by simp, ?_, ?_⟩
      · intro b hbk
        simp at hbk
      · intro h
        obtain ⟨bottoms, hbot⟩ := h hlast
        simp at hbot
    | ok bottoms =>
      refine ⟨by simp, ?_, fun _ => ⟨_, rfl⟩⟩
      intro b hbk
      have hb2 : b = pageLinks _ _ _ := (Except.ok.inj hbk).symm
      subst hb2
      obtain ⟨f1, f2, f3, f4, f5, f6, f7, f8, f9⟩ := pageLinks_fields
        ({ Board := r.Brd, IsValid := true, TotalPage := ops.LastPageNo paging,
           Articles := articles, Bottoms := bottoms, HasPrevPage := false, PrevPage := 0,
           HasNextPage := false, NextPage := 0 } : BbsIndex α)
        page (ops.LastPageNo paging)
      refine ⟨f1, f2, f3, f4, fun h => absurd hlast h, ?_, ?_, f7, ?_, f9⟩
      · intro bottoms2 hbot _
        rw [f5]
        exact Except.ok.inj hbot
      · rw [f6]
        by_cases h1 : page > 1 <;> simp [h1]
      · rw [f8]
        by_cases h2 : page < ops.LastPageNo paging <;> simp [h2]
  · simp only [if_neg hlast]
    refine ⟨by simp, ?_, fun _ => ⟨_, rfl⟩⟩
    intro b hbk
    have hb2 : b = pageLinks _ _ _ := (Except.ok.inj hbk).symm
    subst hb2
    obtain ⟨f1, f2, f3, f4, f5, f6, f7, f8, f9⟩ := pageLinks_fields
      ({ Board := r.Brd, IsValid := true, TotalPage := ops.LastPageNo paging,
         Articles := articles, Bottoms := [], HasPrevPage := false, PrevPage := 0,
         HasNextPage := false, NextPage := 0 } : BbsIndex α)
      page (ops.LastPageNo paging)
    refine ⟨f1, f2, f3, f4, fun _ => f5, ?_, ?_, f7, ?_, f9⟩
    · intro bottoms2 _ h
      exact absurd h hlast
    · rw [f6]
      by_cases h1 : page > 1 <;> simp [h1]
    · rw [f8]
      by_cases h2 : page < ops.LastPageNo paging <;> simp [h2]

/-- The sample pager obeys the pager laws. -/
theorem sampleOps_laws (count : Int) : PagerLaws (sampleOps count) := by
  constructor
  · intro p n
    rfl
  · intro p n
    simp only [sampleOps]
    by_cases h : 1 ≤ n ∧ n ≤ p.last
    · simp [h]
    · simp only [h, if_false, iff_false]
      intro hc
      cases hc

/-- C13. Page-link flags: with a pager obeying the pager laws, a successful
article count fetch, article list and bottom list fetches that succeed, and a
requested page in `[1, lastPage]`, where `lastPage` is `LastPageNo()` of the
pager built from `(EntryPerPage, count)`, generation succeeds and the artifact
has `TotalPage = lastPage`, `HasPrevPage = (page > 1)` and
`HasNextPage = (page < lastPage)`. -/
theorem generateBbsIndex_page_flags {π κ α ε : Type} (ops : BbsOps π κ α ε)
    (r : BbsIndexRequest) (count : Int)
    (hlaws : PagerLaws ops)
    (hcount : ops.GetArticleCount r.Brd.Bid = .ok count)
    (hlo : 1 ≤ r.Page)
    (hhi : r.Page ≤ ops.LastPageNo (ops.NewPaging EntryPerPage count))
    (hlist : ∀ cursor, ∃ articles, ops.GetArticleList r.Brd.Bid cursor = .ok articles)
    (hbottom : ∃ bottoms, ops.GetBottomList r.Brd.Bid = .ok bottoms) :
    ∃ b, (generateBbsIndex ops r).2 = .ok b ∧
      b.TotalPage = ops.LastPageNo (ops.NewPaging EntryPerPage count) ∧
      b.HasPrevPage = decide (r.Page > 1) ∧
      b.HasNextPage = decide (r.Page < ops.LastPageNo (ops.NewPaging EntryPerPage count)) := by
  have hne : r.Page ≠ 0 := by omega
  have hok : (ops.SetPageNo (ops.NewPaging EntryPerPage count) r.Page).2 = none :=
    (hlaws.2 _ _).mpr ⟨hlo, hhi⟩
  have hres : resolvedPage ops r count = r.Page := by
    unfold resolvedPage
    rw [if_neg hne]
  have hlast : ops.LastPageNo (selectedPaging ops r count) =
      ops.LastPageNo (ops.NewPaging EntryPerPage count) := by
    unfold selectedPaging
    exact hlaws.1 _ _
  obtain ⟨articles, hl⟩ := hlist (ops.Cursor (selectedPaging ops r count))
  rw [generateBbsIndex_selected ops r count hcount (fun _ => hok)]
  obtain ⟨_, hfields, hex⟩ := indexAfterPaging_listed ops r (resolvedPage ops r count)
    (selectedPaging ops r count)
    [BbsCall.getArticleCount r.Brd.Bid, BbsCall.setPageNo (resolvedPage ops r count)]
    articles hl
  obtain ⟨b, hb⟩ := hex (fun _ => hbottom)
  obtain ⟨_, _, f3, _, _, _, f7, _, f9, _⟩ := hfields b hb
  refine ⟨b, hb, ?_, ?_, ?_⟩
  · rw [f3, hlast]
  · rw [f7, hres]
  · rw [f9, hres, hlast]

/-- C13, on a board of 45 articles (3 pages), page 2. -/
theorem generateBbsIndex_page_flags_witness :
    ∃ b, (generateBbsIndex (sampleOps 45) { Brd := sampleBoard, Page := 2 }).2 = .ok b ∧
      b.TotalPage = (sampleOps 45).LastPageNo ((sampleOps 45).NewPaging EntryPerPage 45) ∧
      b.HasPrevPage = decide ((2 : Int) > 1) ∧
      b.HasNextPage =
        decide ((2 : Int) < (sampleOps 45).LastPageNo ((sampleOps 45).NewPaging EntryPerPage 45)) :=
  generateBbsIndex_page_flags (sampleOps 45) { Brd := sampleBoard, Page := 2 } 45
    (sampleOps_laws 45) rfl (by decide) (by decide)
    (fun cursor => ⟨[cursor], rfl⟩) ⟨[1000], rfl⟩

/-- C14. Page 0 is the last page: with a pager obeying the pager laws whose
last page number is not negative, a request for page 0 resolves to `lastPage`
and makes the same calls and returns the same artifact or error as the request
for `lastPage` itself; when the article count fetch fails every page returns
that error. -/
theorem generateBbsIndex_page_zero {π κ α ε : Type} (ops : BbsOps π κ α ε) (brd : Board)
    (hlaws : PagerLaws ops) :
    (∀ e, ops.GetArticleCount brd.Bid = .error e →
      ∀ page, (generateBbsIndex ops { Brd := brd, Page := page }).2 = .error e) ∧
    (∀ count, ops.GetArticleCount brd.Bid = .ok count →
      0 ≤ ops.LastPageNo (ops.NewPaging EntryPerPage count) →
      resolvedPage ops { Brd := brd, Page := 0 } count =
        ops.LastPageNo (ops.NewPaging EntryPerPage count) ∧
      generateBbsIndex ops { Brd := brd, Page := 0 } =
        generateBbsIndex ops
          { Brd := brd, Page := ops.LastPageNo (ops.NewPaging EntryPerPage count) }) := by
  constructor
  · intro e he page
    unfold generateBbsIndex
    dsimp only
    rw [he]
  · intro count hcount hnonneg
    refine ⟨by simp [resolvedPage], ?_⟩
    by_cases h0 : ops.LastPageNo (ops.NewPaging EntryPerPage count) = 0
    · rw [h0]
    · have hok : (ops.SetPageNo (ops.NewPaging EntryPerPage count)
          (ops.LastPageNo (ops.NewPaging EntryPerPage count))).2 = none :=
        (hlaws.2 _ _).mpr ⟨by omega, le_refl _⟩
      rw [generateBbsIndex_selected ops { Brd := brd, Page := 0 } count hcount
          (fun h => absurd rfl h),
        generateBbsIndex_selected ops
          { Brd := brd, Page := ops.LastPageNo (ops.NewPaging EntryPerPage count) } count hcount
          (fun _ => hok)]
      simp [resolvedPage, selectedPaging, indexAfterPaging, h0]

/-- C14, on a board of 45 articles: page 0 and page 3 give the same run. -/
theorem generateBbsIndex_page_zero_witness :
    (∀ e, (sampleOps 45).GetArticleCount sampleBoard.Bid = .error e →
      ∀ page, (generateBbsIndex (sampleOps 45) { Brd := sampleBoard, Page := page }).2 =
        .error e) ∧
    (∀ count, (sampleOps 45).GetArticleCount sampleBoard.Bid = .ok count →
      0 ≤ (sampleOps 45).LastPageNo ((sampleOps 45).NewPaging EntryPerPage count) →
      resolvedPage (sampleOps 45) { Brd := sampleBoard, Page := 0 } count =
        (sampleOps 45).LastPageNo ((sampleOps 45).NewPaging EntryPerPage count) ∧
      generateBbsIndex (sampleOps 45) { Brd := sampleBoard, Page := 0 } =
        generateBbsIndex (sampleOps 45)
          { Brd := sampleBoard,
            Page := (sampleOps 45).LastPageNo ((sampleOps 45).NewPaging EntryPerPage count) }) :=
  generateBbsIndex_page_zero (sampleOps 45) sampleBoard (sampleOps_laws 45)

/-- A rejected nonzero page ends the generation with the pager's error. -/
theorem generateBbsIndex_out_of_range_aux {π κ α ε : Type} (ops : BbsOps π κ α ε)
    (r : BbsIndexRequest) (count : Int)
    (hcount : ops.GetArticleCount r.Brd.Bid = .ok count)
    (hne : r.Page ≠ 0) (e : ε)
    (he : (ops.SetPageNo (ops.NewPaging EntryPerPage count) r.Page).2 = some e) :
    generateBbsIndex ops r =
      ([BbsCall.getArticleCount r.Brd.Bid, BbsCall.setPageNo r.Page], .error e) := by
  unfold generateBbsIndex
  rw [hcount]
  simp only [hne, if_false, he]

/-- C15. Out-of-range pages are rejected: when the article count fetch
succeeds and `SetPageNo` rejects the requested nonzero page with the error
`e`, `generateBbsIndex` returns `e` and no artifact, and calls nothing after
`SetPageNo`; with a pager obeying the pager laws this is the case of every
nonzero page beyond `lastPage`. -/
theorem generateBbsIndex_out_of_range {π κ α ε : Type} (ops : BbsOps π κ α ε)
    (r : BbsIndexRequest) (count : Int)
    (hcount : ops.GetArticleCount r.Brd.Bid = .ok count)
    (hne : r.Page ≠ 0) :
    (∀ e, (ops.SetPageNo (ops.NewPaging EntryPerPage count) r.Page).2 = some e →
      generateBbsIndex ops r =
        ([BbsCall.getArticleCount r.Brd.Bid, BbsCall.setPageNo r.Page], .error e)) ∧
    (PagerLaws ops → r.Page > ops.LastPageNo (ops.NewPaging EntryPerPage count) →
      ∃ e, (ops.SetPageNo (ops.NewPaging EntryPerPage count) r.Page).2 = some e ∧
        generateBbsIndex ops r =
          ([BbsCall.getArticleCount r.Brd.Bid, BbsCall.setPageNo r.Page], .error e)) := by
  have hgen : ∀ e, (ops.SetPageNo (ops.NewPaging EntryPerPage count) r.Page).2 = some e →
      generateBbsIndex ops r =
        ([BbsCall.getArticleCount r.Brd.Bid, BbsCall.setPageNo r.Page], .error e) :=
    fun e he => generateBbsIndex_out_of_range_aux ops r count hcount hne e he
  refine ⟨hgen, ?_⟩
  intro hlaws hgt
  cases hs : (ops.SetPageNo (ops.NewPaging EntryPerPage count) r.Page).2 with
  | none =>
    have h := (hlaws.2 _ _).mp hs
    omega
  | some e => exact ⟨e, rfl, hgen e hs⟩

/-- C15, on a board of 45 articles (3 pages), page 4. -/
theorem generateBbsIndex_out_of_range_witness :
    (∀ e, ((sampleOps 45).SetPageNo ((sampleOps 45).NewPaging EntryPerPage 45) 4).2 = some e →
      generateBbsIndex (sampleOps 45) { Brd := sampleBoard, Page := 4 } =
        ([BbsCall.getArticleCount sampleBoard.Bid, BbsCall.setPageNo 4], .error e)) ∧
    (PagerLaws (sampleOps 45) →
      (4 : Int) > (sampleOps 45).LastPageNo ((sampleOps 45).NewPaging EntryPerPage 45) →
      ∃ e, ((sampleOps 45).SetPageNo ((sampleOps 45).NewPaging EntryPerPage 45) 4).2 = some e ∧
        generateBbsIndex (sampleOps 45) { Brd := sampleBoard, Page := 4 } =
          ([BbsCall.getArticleCount sampleBoard.Bid, BbsCall.setPageNo 4], .error e)) :=
  generateBbsIndex_out_of_range (sampleOps 45) { Brd := sampleBoard, Page := 4 } 45 rfl
    (by decide)

/-- C16. Bottoms are fetched iff on the last page: when the article count
fetch, the page selection and the article list fetch succeed, the calls are
the count fetch, `SetPageNo`, the list fetch and then `GetBottomList`, once,
exactly when the resolved page equals `LastPageNo()`; on every other page it is
not called and the artifact's `Bottoms` is empty. With a pager obeying the
pager laws that `LastPageNo()` is the one of the freshly built pager. -/
theorem generateBbsIndex_bottoms_iff_last_page {π κ α ε : Type} (ops : BbsOps π κ α ε)
    (r : BbsIndexRequest) (count : Int) (articles : List α)
    (hcount : ops.GetArticleCount r.Brd.Bid = .ok count)
    (hsel : r.Page ≠ 0 → (ops.SetPageNo (ops.NewPaging EntryPerPage count) r.Page).2 = none)
    (hlist : ops.GetArticleList r.Brd.Bid (ops.Cursor (selectedPaging ops r count)) =
      .ok articles) :
    (generateBbsIndex ops r).1 =
      [BbsCall.getArticleCount r.Brd.Bid, BbsCall.setPageNo (resolvedPage ops r count),
       BbsCall.getArticleList r.Brd.Bid (ops.Cursor (selectedPaging ops r count))] ++
      (if resolvedPage ops r count = ops.LastPageNo (selectedPaging ops r count) then
        [BbsCall.getBottomList r.Brd.Bid] else []) ∧
    (resolvedPage ops r count ≠ ops.LastPageNo (selectedPaging ops r count) →
      ∃ b, (generateBbsIndex ops r).2 = .ok b ∧ b.Bottoms = []) ∧
    (PagerLaws ops → ops.LastPageNo (selectedPaging ops r count) =
      ops.LastPageNo (ops.NewPaging EntryPerPage count)) := by
  rw [generateBbsIndex_selected ops r count hcount hsel]
  obtain ⟨hcalls, hfields, hex⟩ := indexAfterPaging_listed ops r (resolvedPage ops r count)
    (selectedPaging ops r count)
    [BbsCall.getArticleCount r.Brd.Bid, BbsCall.setPageNo (resolvedPage ops r count)]
    articles hlist
  refine ⟨?_, ?_, ?_⟩
  · rw [hcalls]
    simp
  · intro hnl
    obtain ⟨b, hb⟩ := hex (fun h => absurd h hnl)
    obtain ⟨_, _, _, _, f5, _⟩ := hfields b hb
    exact ⟨b, hb, f5 hnl⟩
  · intro hlaws
    unfold selectedPaging
    exact hlaws.1 _ _

/-- C16, on a board of 45 articles (3 pages), page 1: no bottom list
fetch. -/
theorem generateBbsIndex_bottoms_iff_last_page_witness :
    (generateBbsIndex (sampleOps 45) { Brd := sampleBoard, Page := 1 }).1 =
      [BbsCall.getArticleCount sampleBoard.Bid,
       BbsCall.setPageNo (resolvedPage (sampleOps 45) { Brd := sampleBoard, Page := 1 } 45),
       BbsCall.getArticleList sampleBoard.Bid ((sampleOps 45).Cursor
         (selectedPaging (sampleOps 45) { Brd := sampleBoard, Page := 1 } 45))] ++
      (if resolvedPage (sampleOps 45) { Brd := sampleBoard, Page := 1 } 45 =
          (sampleOps 45).LastPageNo
            (selectedPaging (sampleOps 45) { Brd := sampleBoard, Page := 1 } 45) then
        [BbsCall.getBottomList sampleBoard.Bid] else []) ∧
    (resolvedPage (sampleOps 45) { Brd := sampleBoard, Page := 1 } 45 ≠
        (sampleOps 45).LastPageNo
          (selectedPaging (sampleOps 45) { Brd := sampleBoard, Page := 1 } 45) →
      ∃ b, (generateBbsIndex (sampleOps 45) { Brd := sampleBoard, Page := 1 }).2 = .ok b ∧
        b.Bottoms = []) ∧
    (PagerLaws (sampleOps 45) →
      (sampleOps 45).LastPageNo
          (selectedPaging (sampleOps 45) { Brd := sampleBoard, Page := 1 } 45) =
        (sampleOps 45).LastPageNo ((sampleOps 45).NewPaging EntryPerPage 45)) :=
  generateBbsIndex_bottoms_iff_last_page (sampleOps 45) { Brd := sampleBoard, Page := 1 } 45
    [0] rfl (fun _ => rfl) rfl

/-- C17, as stated, fails: on a board of 45 articles (3 pages) the generation
for page 3 succeeds with `NextPage = 0`, not `3 + 1`. -/
theorem generateBbsIndex_page_numbers_counterexample :
    resolvedPage (sampleOps 45) { Brd := sampleBoard, Page := 3 } 45 = 3 ∧
      generateBbsIndex (sampleOps 45) { Brd := sampleBoard, Page := 3 } =
        ([BbsCall.getArticleCount 3, BbsCall.setPageNo 3, BbsCall.getArticleList 3 40,
          BbsCall.getBottomList 3],
         .ok { Board := sampleBoard, IsValid := true, TotalPage := 3, Articles := [40],
               Bottoms := [1000], HasPrevPage := true, PrevPage := 2,
               HasNextPage := false, NextPage := 0 }) ∧
      (0 : Int) ≠ 3 + 1 :=
  ⟨rfl, rfl, by decide⟩

/-- C17, amended. Page numbers: for every successful generation with resolved
page `p` and `lastPage` the pager's `LastPageNo()`, the artifact has
`HasPrevPage = (p > 1)` and `HasNextPage = (p < lastPage)`, `PrevPage = p - 1`
when `p > 1` and `0` otherwise (so `PrevPage = p - 1` for every `p ≥ 1`), and
`NextPage = p + 1` when `p < lastPage` and `0` otherwise. -/
theorem generateBbsIndex_page_numbers {π κ α ε : Type} (ops : BbsOps π κ α ε)
    (r : BbsIndexRequest) (count : Int) (b : BbsIndex α)
    (hcount : ops.GetArticleCount r.Brd.Bid = .ok count)
    (hok : (generateBbsIndex ops r).2 = .ok b) :
    b.HasPrevPage = decide (resolvedPage ops r count > 1) ∧
    b.PrevPage = (if resolvedPage ops r count > 1 then resolvedPage ops r count - 1 else 0) ∧
    (1 ≤ resolvedPage ops r count → b.PrevPage = resolvedPage ops r count - 1) ∧
    b.HasNextPage =
      decide (resolvedPage ops r count < ops.LastPageNo (selectedPaging ops r count)) ∧
    b.NextPage =
      (if resolvedPage ops r count < ops.LastPageNo (selectedPaging ops r count) then
        resolvedPage ops r count + 1 else 0) := by
  have hsel : r.Page ≠ 0 →
      (ops.SetPageNo (ops.NewPaging EntryPerPage count) r.Page).2 = none := by
    intro hne
    cases hs : (ops.SetPageNo (ops.NewPaging EntryPerPage count) r.Page).2 with
    | none => rfl
    | some e =>
      have h := (generateBbsIndex_out_of_range_aux ops r count hcount hne e hs)
      rw [h] at hok
      cases hok
  rw [generateBbsIndex_selected ops r count hcount hsel] at hok
  cases hl : ops.GetArticleList r.Brd.Bid (ops.Cursor (selectedPaging ops r count)) with
  | error e =>
    unfold indexAfterPaging at hok
    rw [hl] at hok
    cases hok
  | ok articles =>
    obtain ⟨_, hfields, _⟩ := indexAfterPaging_listed ops r (resolvedPage ops r count)
      (selectedPaging ops r count)
      [BbsCall.getArticleCount r.Brd.Bid, BbsCall.setPageNo (resolvedPage ops r count)]
      articles hl
    obtain ⟨_, _, _, _, _, _, f7, f8, f9, f10⟩ := hfields b hok
    refine ⟨f7, f8, ?_, f9, f10⟩
    intro h1
    rw [f8]
    by_cases h2 : resolvedPage ops r count > 1
    · rw [if_pos h2]
    · rw [if_neg h2]
      omega

/-- C17 (amended), on a board of 45 articles (3 pages), page 3. -/
theorem generateBbsIndex_page_numbers_witness :
    (true = decide (resolvedPage (sampleOps 45) { Brd := sampleBoard, Page := 3 } 45 > 1)) ∧
    ((2 : Int) = (if resolvedPage (sampleOps 45) { Brd := sampleBoard, Page := 3 } 45 > 1 then
      resolvedPage (sampleOps 45) { Brd := sampleBoard, Page := 3 } 45 - 1 else 0)) ∧
    (1 ≤ resolvedPage (sampleOps 45) { Brd := sampleBoard, Page := 3 } 45 →
      (2 : Int) = resolvedPage (sampleOps 45) { Brd := sampleBoard, Page := 3 } 45 - 1) ∧
    (false = decide (resolvedPage (sampleOps 45) { Brd := sampleBoard, Page := 3 } 45 <
      (sampleOps 45).LastPageNo
        (selectedPaging (sampleOps 45) { Brd := sampleBoard, Page := 3 } 45))) ∧
    ((0 : Int) = (if resolvedPage (sampleOps 45) { Brd := sampleBoard, Page := 3 } 45 <
        (sampleOps 45).LastPageNo
          (selectedPaging (sampleOps 45) { Brd := sampleBoard, Page := 3 } 45) then
      resolvedPage (sampleOps 45) { Brd := sampleBoard, Page := 3 } 45 + 1 else 0)) :=
  generateBbsIndex_page_numbers (sampleOps 45) { Brd := sampleBoard, Page := 3 } 45
    { Board := sampleBoard, IsValid := true, TotalPage := 3, Articles := [40],
      Bottoms := [1000], HasPrevPage := true, PrevPage := 2,
      HasNextPage := false, NextPage := 0 }
    rfl rfl

/-- The decimal digits of a natural number are digit characters. -/
theorem decimalNat_digit (n : Nat) : ∀ c : Nat, c ∈ decimalNat n → 48 ≤ c ∧ c ≤ 57 := by
  intro c hc
  unfold decimalNat at hc
  by_cases h0 : n = 0
  · rw [if_pos h0] at hc
    simp at hc
    omega
  · rw [if_neg h0] at hc
    simp only [List.mem_map, List.mem_reverse] at hc
    obtain ⟨d, hd, rfl⟩ := hc
    have hlt := @Nat.digits_lt_base 10 n d (by decide) hd
    exact ⟨Nat.le_add_left 48 d, Nat.add_le_add_right (Nat.le_of_lt_succ hlt) 48⟩

/-- The decimal digits are never the empty text. -/
theorem decimalNat_ne_nil (n : Nat) : decimalNat n ≠ [] := by
  unfold decimalNat
  by_cases h0 : n = 0
  · rw [if_pos h0]
    simp
  · rw [if_neg h0]
    intro h
    simp only [List.map_eq_nil_iff, List.reverse_eq_nil_iff] at h
    exact h0 (Nat.digits_eq_nil_iff_eq_zero.mp h)

/-- Distinct natural numbers have distinct decimal digits. -/
theorem decimalNat_injective (n m : Nat) (h : decimalNat n = decimalNat m) : n = m := by
  have hinj : Function.Injective (fun d : Nat => d + 48) := fun a b hab => by
    simpa using hab
  have key : ∀ a b : Nat, a = 0 → b ≠ 0 → decimalNat a ≠ decimalNat b := by
    intro a b ha hb hab
    unfold decimalNat at hab
    rw [if_pos ha, if_neg hb] at hab
    have h1 : (Nat.digits 10 b).reverse.map (fun d => d + 48) = [0].map (fun d => d + 48) := by
      rw [← hab]; rfl
    have h2 : (Nat.digits 10 b).reverse = [0] := List.map_injective_iff.mpr hinj h1
    have h3 : Nat.digits 10 b = [0] := by
      have := congrArg List.reverse h2
      simpa using this
    have h4 : Nat.ofDigits 10 (Nat.digits 10 b) = b := Nat.ofDigits_digits 10 b
    rw [h3] at h4
    simp at h4
    exact hb h4.symm
  by_cases hn : n = 0
  · by_cases hm : m = 0
    · rw [hn, hm]
    · exact absurd h (key n m hn hm)
  · by_cases hm : m = 0
    · exact absurd h.symm (key m n hm hn)
    · unfold decimalNat at h
      rw [if_neg hn, if_neg hm] at h
      have h2 : (Nat.digits 10 n).reverse = (Nat.digits 10 m).reverse :=
        List.map_injective_iff.mpr hinj h
      have h3 : Nat.digits 10 n = Nat.digits 10 m := List.reverse_injective h2
      have h4 := congrArg (Nat.ofDigits 10) h3
      rwa [Nat.ofDigits_digits, Nat.ofDigits_digits] at h4

/-- The text of an `int` holds no slash. -/
theorem formatInt_no_slash (z : Int) : (47 : Nat) ∉ formatInt z := by
  intro h
  unfold formatInt at h
  by_cases hz : z < 0
  · rw [if_pos hz] at h
    rcases List.mem_cons.mp h with h1 | h1
    · exact absurd h1 (by decide)
    · have := decimalNat_digit _ _ h1
      omega
  · rw [if_neg hz] at h
    have := decimalNat_digit _ _ h
    omega

/-- Distinct `int`s have distinct texts. -/
theorem formatInt_injective (z w : Int) (h : formatInt z = formatInt w) : z = w := by
  unfold formatInt at h
  have hhead : ∀ n l, decimalNat n ≠ 45 :: l := by
    intro n l hc
    have hm : (45 : Nat) ∈ decimalNat n := by
      rw [hc]; exact List.mem_cons_self _ _
    have := decimalNat_digit _ _ hm
    omega
  by_cases hz : z < 0 <;> by_cases hw : w < 0
  · rw [if_pos hz, if_pos hw] at h
    have := decimalNat_injective _ _ (List.cons.inj h).2
    omega
  · rw [if_pos hz, if_neg hw] at h
    exact absurd h.symm (hhead _ _)
  · rw [if_neg hz, if_pos hw] at h
    exact absurd h (hhead _ _)
  · rw [if_neg hz, if_neg hw] at h
    have := decimalNat_injective _ _ h
    omega

/-- A text is split in one way only at its last slash. -/
theorem split_at_last_slash (a b x y : List Byte) (hx : (47 : Nat) ∉ x) (hy : (47 : Nat) ∉ y)
    (h : a ++ 47 :: x = b ++ 47 :: y) : a = b ∧ x = y := by
  rcases List.append_eq_append_iff.mp h with ⟨t, hb, ht⟩ | ⟨t, ha, ht⟩
  · cases t with
    | nil =>
      simp only [List.nil_append] at ht
      exact ⟨by simpa using hb.symm, (List.cons.inj ht).2⟩
    | cons c t =>
      have hmem : (47 : Nat) ∈ x := by
        rw [(List.cons.inj ht).2]
        simp
      exact absurd hmem hx
  · cases t with
    | nil =>
      simp only [List.nil_append] at ht
      exact ⟨by simpa using ha, ((List.cons.inj ht).2).symm⟩
    | cons c t =>
      have hmem : (47 : Nat) ∈ y := by
        rw [(List.cons.inj ht).2]
        simp
      exact absurd hmem hy

/-- C18, as stated, fails: the board index request for page 5 of a board and
the article request with namespace `bbsindex`, the same board and file name
`5` have the same identity. -/
theorem request_strings_collide_counterexample :
    (BbsIndexRequest.mk sampleBoard 5).String = collidingArticleRequest.String := by
  simp [BbsIndexRequest.String, ArticleRequest.String, collidingArticleRequest, formatInt,
    decimalNat, bytesOf]

/-- C18, amended. Identities do not collide across variants when the
namespace stays clear of the board index: for every board index request and
every article request whose namespace is not the text `bbsindex` and does not
begin with `bbsindex/`, the two identities differ. -/
theorem request_strings_differ {ε : Type} (bi : BbsIndexRequest) (ar : ArticleRequest ε)
    (hns : ar.Namespace ≠ bytesOf "bbsindex")
    (hnp : ∀ t, ar.Namespace ≠ bytesOf "bbsindex/" ++ t) :
    bi.String ≠ ar.String := by
  intro h
  unfold BbsIndexRequest.String ArticleRequest.String at h
  have e1 : bytesOf "pttweb:bbsindex/" = bytesOf "pttweb:" ++ (bytesOf "bbsindex" ++ [47]) := by
    decide
  have e2 : bytesOf "/" = [47] := by decide
  have e3 : ∀ t, bytesOf "bbsindex/" ++ t = bytesOf "bbsindex" ++ 47 :: t := by
    intro t
    have : bytesOf "bbsindex/" = bytesOf "bbsindex" ++ [47] := by decide
    rw [this]
    simp
  rw [e1, e2] at h
  simp only [List.append_assoc, List.singleton_append] at h
  have h2 := List.append_cancel_left h
  rcases List.append_eq_append_iff.mp h2 with ⟨t, hN, ht⟩ | ⟨t, hB, ht⟩
  · cases t with
    | nil => exact hns (by simpa using hN)
    | cons c t =>
      have hc : c = 47 := by
        have h9 := (List.cons.inj ht).1
        first | exact h9 | exact h9.symm
      rw [hc] at hN
      exact hnp t (by rw [e3]; exact hN)
  · cases t with
    | nil => exact hns (by simpa using hB.symm)
    | cons c t =>
      have hc : c = 47 := by
        have h9 := (List.cons.inj ht).1
        first | exact h9 | exact h9.symm
      have hmem : (47 : Nat) ∈ bytesOf "bbsindex" := by
        rw [hB, hc]
        simp
      exact absurd hmem (by decide)

/-- C18 (amended), at the namespace `bbs`. -/
theorem request_strings_differ_witness :
    (BbsIndexRequest.mk sampleBoard 5).String ≠
      (ArticleRequest.mk (bytesOf "bbs") sampleBoard (bytesOf "5")
        (@fileFetcher Unit [])).String :=
  request_strings_differ (BbsIndexRequest.mk sampleBoard 5)
    (ArticleRequest.mk (bytesOf "bbs") sampleBoard (bytesOf "5") (@fileFetcher Unit []))
    (by decide)
    (fun t h => by
      have h1 := congrArg List.length h
      simp [bytesOf] at h1)

/-- C20. Board index identities are injective: for all board names, slashes
included, and all pages, equal identities come from equal board names and
equal pages. -/
theorem BbsIndexRequest_String_injective (r1 r2 : BbsIndexRequest)
    (h : r1.String = r2.String) :
    r1.Brd.BrdName = r2.Brd.BrdName ∧ r1.Page = r2.Page := by
  unfold BbsIndexRequest.String at h
  have e2 : bytesOf "/" = [47] := by decide
  rw [e2] at h
  simp only [List.append_assoc, List.singleton_append] at h
  have h2 := List.append_cancel_left h
  obtain ⟨hb, hp⟩ := split_at_last_slash _ _ _ _ (formatInt_no_slash _) (formatInt_no_slash _) h2
  exact ⟨hb, formatInt_injective _ _ hp⟩

/-- C20, at two requests for page 12 of the board `a/b`. -/
theorem BbsIndexRequest_String_injective_witness :
    (BbsIndexRequest.mk { Bid := 1, BrdName := [97, 47, 98] } 12).Brd.BrdName =
        (BbsIndexRequest.mk { Bid := 2, BrdName := [97, 47, 98] } 12).Brd.BrdName ∧
      (BbsIndexRequest.mk { Bid := 1, BrdName := [97, 47, 98] } 12).Page =
        (BbsIndexRequest.mk { Bid := 2, BrdName := [97, 47, 98] } 12).Page :=
  BbsIndexRequest_String_injective
    (BbsIndexRequest.mk { Bid := 1, BrdName := [97, 47, 98] } 12)
    (BbsIndexRequest.mk { Bid := 2, BrdName := [97, 47, 98] } 12) rfl

/-- In `generateBbsIndex` every failed call, the discarded `SetPageNo` of the
page 0 branch apart, is the last call made and its error is the result; and no
call is made twice. -/
theorem generateBbsIndex_failures {π κ α ε : Type} (ops : BbsOps π κ α ε)
    (r : BbsIndexRequest) :
    (generateBbsIndex ops r).1.Nodup ∧
    ∀ c ∈ (generateBbsIndex ops r).1, ∀ e, bbsCallError ops r c = some e →
      (r.Page = 0 → ∀ page, c ≠ BbsCall.setPageNo page) →
      (generateBbsIndex ops r).2 = .error e ∧ (generateBbsIndex ops r).1.getLast? = some c := by
  unfold generateBbsIndex
  cases h1 : ops.GetArticleCount r.Brd.Bid with
  | error e1 =>
    simp [bbsCallError, errorOf, h1]
  | ok count =>
    by_cases h0 : r.Page = 0
    · simp only [h0, if_true]
      unfold indexAfterPaging
      cases h3 : ops.GetArticleList r.Brd.Bid (ops.Cursor (ops.SetPageNo
          (ops.NewPaging EntryPerPage count)
          (ops.LastPageNo (ops.NewPaging EntryPerPage count))).1) with
      | error e3 =>
        simp [bbsCallError, errorOf, h1, h3]
      | ok articles =>
        by_cases hl : ops.LastPageNo (ops.NewPaging EntryPerPage count) =
            ops.LastPageNo (ops.SetPageNo (ops.NewPaging EntryPerPage count)
              (ops.LastPageNo (ops.NewPaging EntryPerPage count))).1
        · simp only [if_pos hl]
          cases h4 : ops.GetBottomList r.Brd.Bid with
          | error e4 => simp [bbsCallError, errorOf, h1, h3, h4]
          | ok bottoms => simp [bbsCallError, errorOf, h1, h3, h4]
        · simp only [if_neg hl]
          simp [bbsCallError, errorOf, h1, h3]
    · simp only [h0, if_false]
      cases h2 : (ops.SetPageNo (ops.NewPaging EntryPerPage count) r.Page).2 with
      | some e2 =>
        simp [bbsCallError, errorOf, h1, h2]
      | none =>
        unfold indexAfterPaging
        cases h3 : ops.GetArticleList r.Brd.Bid (ops.Cursor (ops.SetPageNo
            (ops.NewPaging EntryPerPage count) r.Page).1) with
        | error e3 =>
          simp [bbsCallError, errorOf, h1, h2, h3]
        | ok articles =>
          by_cases hl : r.Page = ops.LastPageNo (ops.SetPageNo
              (ops.NewPaging EntryPerPage count) r.Page).1
          · simp only [if_pos hl]
            cases h4 : ops.GetBottomList r.Brd.Bid with
            | error e4 => simp [bbsCallError, errorOf, h1, h2, h3, h4]
            | ok bottoms => simp [bbsCallError, errorOf, h1, h2, h3, h4]
          · simp only [if_neg hl]
            simp [bbsCallError, errorOf, h1, h2, h3]

/-- In `renderHead` a failed render is the last call and its error is the
result. -/
theorem renderHead_failures {ε : Type} (Render : Bool → List Byte → Except ε Rendered)
    (a : Article) (p : ArticlePart) (tr : List Call) :
    (renderHead Render a p tr).1 = tr ++ [Call.render false p.Content] ∧
    ∀ e, errorOf (Render false p.Content) = some e →
      (renderHead Render a p tr).2 = .error e := by
  unfold renderHead
  cases h : Render false p.Content <;> simp [errorOf]

/-- In `finishArticle`, started after calls `tr` that all succeeded and none
of which is a tail fetch or a render, every failed call is the last call made
and its error is the result; and no call is made twice. -/
theorem finishArticle_failures {ε : Type} (ErrNotFound : ε)
    (Select : SelectMethod → Int → Int → Except ε ArticlePart)
    (Render : Bool → List Byte → Except ε Rendered) (p : ArticlePart) (tr : List Call)
    (hnodup : tr.Nodup)
    (hok : ∀ c ∈ tr, articleCallError Select Render c = none)
    (hkind : ∀ c ∈ tr, c.isRender = false ∧ c.isTailSelect = false) :
    (finishArticle ErrNotFound Select Render p tr).1.Nodup ∧
    ∀ c ∈ (finishArticle ErrNotFound Select Render p tr).1, ∀ e,
      articleCallError Select Render c = some e →
      (finishArticle ErrNotFound Select Render p tr).2 = .error e ∧
      (finishArticle ErrNotFound Select Render p tr).1.getLast? = some c := by
  have hold : ∀ c ∈ tr, ∀ e, articleCallError Select Render c ≠ some e := by
    intro c hc e h
    rw [hok c hc] at h
    cases h
  have hnt : Call.select .SelectTail (-TailSize) TailSize ∉ tr := by
    intro h
    have := (hkind _ h).2
    simp [Call.isTailSelect] at this
  have hnr : ∀ f content, Call.render f content ∉ tr := by
    intro f content h
    have := (hkind _ h).1
    simp [Call.isRender] at this
  unfold finishArticle
  by_cases hz : p.Content.length = 0
  · rw [if_pos hz]
    exact ⟨hnodup, fun c hc e h => absurd h (hold c hc e)⟩
  · rw [if_neg hz]
    dsimp only
    by_cases hp : p.Length < p.FileSize
    · simp only [hp, decide_True, if_true]
      cases ht : Select .SelectTail (-TailSize) TailSize with
      | error et =>
        dsimp only
        refine ⟨?_, ?_⟩
        · rw [List.nodup_append]
          refine ⟨hnodup, by simp, ?_⟩
          intro a ha hb
          simp only [List.mem_singleton] at hb
          exact hnt (hb ▸ ha)
        · intro c hc e h
          rcases List.mem_append.mp hc with hc | hc
          · exact absurd h (hold c hc e)
          · simp only [List.mem_singleton] at hc
            subst hc
            simp [articleCallError, errorOf, ht] at h
            simp [h]
      | ok ptail =>
        dsimp only
        by_cases hc0 : ptail.Content.length > 0
        · rw [if_pos hc0]
          cases hr : Render true ptail.Content with
          | error er =>
            dsimp only
            refine ⟨?_, ?_⟩
            · rw [List.nodup_append]
              refine ⟨hnodup, by simp, ?_⟩
              intro a ha hb
              simp only [List.mem_cons, List.mem_singleton, List.not_mem_nil, or_false] at hb
              rcases hb with hb | hb
              · exact hnt (hb ▸ ha)
              · exact hnr _ _ (hb ▸ ha)
            · intro c hc e h
              rcases List.mem_append.mp hc with hc | hc
              · exact absurd h (hold c hc e)
              · simp only [List.mem_cons, List.mem_singleton, List.not_mem_nil, or_false] at hc
                rcases hc with hc | hc
                · subst hc
                  simp [articleCallError, errorOf, ht] at h
                · subst hc
                  simp [articleCallError, errorOf, hr] at h
                  simp [h]
          | ok buf =>
            dsimp only
            obtain ⟨hcalls, hres⟩ := renderHead_failures Render
              { Article.zero with IsPartial := true, IsTruncated := true,
                                  ContentTailHtml := buf.Bytes } p
              (tr ++ [Call.select .SelectTail (-TailSize) TailSize,
                Call.render true ptail.Content])
            rw [hcalls]
            refine ⟨?_, ?_⟩
            · rw [List.nodup_append]
              refine ⟨?_, by simp, ?_⟩
              · rw [List.nodup_append]
                refine ⟨hnodup, by simp, ?_⟩
                intro a ha hb
                simp only [List.mem_cons, List.mem_singleton, List.not_mem_nil, or_false] at hb
                rcases hb with hb | hb
                · exact hnt (hb ▸ ha)
                · exact hnr _ _ (hb ▸ ha)
              · intro a ha hb
                simp only [List.mem_singleton] at hb
                subst hb
                rcases List.mem_append.mp ha with ha | ha
                · exact hnr _ _ ha
                · simp at ha
            · intro c hc e h
              rcases List.mem_append.mp hc with hc | hc
              · rcases List.mem_append.mp hc with hc | hc
                · exact absurd h (hold c hc e)
                · simp only [List.mem_cons, List.mem_singleton, List.not_mem_nil,
                    or_false] at hc
                  rcases hc with hc | hc
                  · subst hc
                    simp [articleCallError, errorOf, ht] at h
                  · subst hc
                    simp [articleCallError, errorOf, hr] at h
              · simp only [List.mem_singleton] at hc
                subst hc
                exact ⟨hres e h, by simp⟩
        · rw [if_neg hc0]
          obtain ⟨hcalls, hres⟩ := renderHead_failures Render
            { Article.zero with IsPartial := true, IsTruncated := true } p
            (tr ++ [Call.select .SelectTail (-TailSize) TailSize])
          rw [hcalls]
          refine ⟨?_, ?_⟩
          · rw [List.nodup_append]
            refine ⟨?_, by simp, ?_⟩
            · rw [List.nodup_append]
              refine ⟨hnodup, by simp, ?_⟩
              intro a ha hb
              simp only [List.mem_singleton] at hb
              exact hnt (hb ▸ ha)
            · intro a ha hb
              simp only [List.mem_singleton] at hb
              subst hb
              rcases List.mem_append.mp ha with ha | ha
              · exact hnr _ _ ha
              · simp at ha
          · intro c hc e h
            rcases List.mem_append.mp hc with hc | hc
            · rcases List.mem_append.mp hc with hc | hc
              · exact absurd h (hold c hc e)
              · simp only [List.mem_singleton] at hc
                subst hc
                simp [articleCallError, errorOf, ht] at h
            · simp only [List.mem_singleton] at hc
              subst hc
              exact ⟨hres e h, by simp⟩
    · simp only [hp, decide_False, Bool.false_eq_true, if_false]
      obtain ⟨hcalls, hres⟩ := renderHead_failures Render
        { Article.zero with IsPartial := false, IsTruncated := false } p tr
      rw [hcalls]
      refine ⟨?_, ?_⟩
      · rw [List.nodup_append]
        refine ⟨hnodup, by simp, ?_⟩
        intro a ha hb
        simp only [List.mem_singleton] at hb
        exact hnr _ _ (hb ▸ ha)
      · intro c hc e h
        rcases List.mem_append.mp hc with hc | hc
        · exact absurd h (hold c hc e)
        · simp only [List.mem_singleton] at hc
          subst hc
          exact ⟨hres e h, by simp⟩

/-- In `generateArticle` every failed call is the last call made and its error
is the result; and no call is made twice. -/
theorem generateArticle_failures {ε : Type} (ErrNotFound : ε)
    (Select : SelectMethod → Int → Int → Except ε ArticlePart)
    (Render : Bool → List Byte → Except ε Rendered) :
    (generateArticle ErrNotFound Select Render).1.Nodup ∧
    ∀ c ∈ (generateArticle ErrNotFound Select Render).1, ∀ e,
      articleCallError Select Render c = some e →
      (generateArticle ErrNotFound Select Render).2 = .error e ∧
      (generateArticle ErrNotFound Select Render).1.getLast? = some c := by
  unfold generateArticle
  cases hh : Select .SelectHead 0 HeadSize with
  | error eh =>
    simp [articleCallError, errorOf, hh]
  | ok p =>
    dsimp only
    by_cases hw : p.FileSize > HeadSize ∧ p.FileSize ≤ HeadSize + TailSize
    · rw [if_pos hw]
      cases hp : Select .SelectPart 0 p.FileSize with
      | error ep =>
        simp [articleCallError, errorOf, hh, hp]
      | ok p2 =>
        dsimp only
        apply finishArticle_failures
        · simp
        · intro c hc
          simp only [List.mem_cons, List.mem_singleton, List.not_mem_nil, or_false] at hc
          rcases hc with hc | hc <;> subst hc <;> simp [articleCallError, errorOf, hh, hp]
        · intro c hc
          simp only [List.mem_cons, List.mem_singleton, List.not_mem_nil, or_false] at hc
          rcases hc with hc | hc <;> subst hc <;> simp [Call.isRender, Call.isTailSelect]
    · rw [if_neg hw]
      apply finishArticle_failures
      · simp
      · intro c hc
        simp only [List.mem_singleton] at hc
        subst hc
        simp [articleCallError, errorOf, hh]
      · intro c hc
        simp only [List.mem_singleton] at hc
        subst hc
        simp [Call.isRender, Call.isTailSelect]

/-- The only `SetPageNo` call of `generateBbsIndex` is made after a successful
article count fetch, for the resolved page. -/
theorem generateBbsIndex_setPageNo_mem {π κ α ε : Type} (ops : BbsOps π κ α ε)
    (r : BbsIndexRequest) (page : Int)
    (h : BbsCall.setPageNo page ∈ (generateBbsIndex ops r).1) :
    ∃ count, ops.GetArticleCount r.Brd.Bid = .ok count ∧ page = resolvedPage ops r count := by
  unfold generateBbsIndex at h
  cases h1 : ops.GetArticleCount r.Brd.Bid with
  | error e1 =>
    rw [h1] at h
    simp at h
  | ok count =>
    rw [h1] at h
    refine ⟨count, rfl, ?_⟩
    unfold resolvedPage
    by_cases h0 : r.Page = 0
    · simp only [h0, if_true] at h ⊢
      unfold indexAfterPaging at h
      cases h3 : ops.GetArticleList r.Brd.Bid (ops.Cursor (ops.SetPageNo
          (ops.NewPaging EntryPerPage count)
          (ops.LastPageNo (ops.NewPaging EntryPerPage count))).1) with
      | error e3 =>
        rw [h3] at h
        simpa using h
      | ok articles =>
        rw [h3] at h
        by_cases hl : ops.LastPageNo (ops.NewPaging EntryPerPage count) =
            ops.LastPageNo (ops.SetPageNo (ops.NewPaging EntryPerPage count)
              (ops.LastPageNo (ops.NewPaging EntryPerPage count))).1
        · simp only [if_pos hl] at h
          cases h4 : ops.GetBottomList r.Brd.Bid with
          | error e4 =>
            rw [h4] at h
            simpa using h
          | ok bottoms =>
            rw [h4] at h
            simpa using h
        · simp only [if_neg hl] at h
          simpa using h
    · simp only [h0, if_false] at h ⊢
      cases h2 : (ops.SetPageNo (ops.NewPaging EntryPerPage count) r.Page).2 with
      | some e2 =>
        rw [h2] at h
        simpa using h
      | none =>
        rw [h2] at h
        unfold indexAfterPaging at h
        cases h3 : ops.GetArticleList r.Brd.Bid (ops.Cursor (ops.SetPageNo
            (ops.NewPaging EntryPerPage count) r.Page).1) with
        | error e3 =>
          rw [h3] at h
          simpa using h
        | ok articles =>
          rw [h3] at h
          by_cases hl : r.Page = ops.LastPageNo (ops.SetPageNo
              (ops.NewPaging EntryPerPage count) r.Page).1
          · simp only [if_pos hl] at h
            cases h4 : ops.GetBottomList r.Brd.Bid with
            | error e4 =>
              rw [h4] at h
              simpa using h
            | ok bottoms =>
              rw [h4] at h
              simpa using h
          · simp only [if_neg hl] at h
            simpa using h

/-- With a pager whose last page is 0 the page 0 branch behaves otherwise: on
an empty board the sample pager rejects `SetPageNo(0)` with error `7`, line 46
does not look at that error, the lists are fetched and an artifact is
returned. A board index of at least one page excludes this. -/
theorem generateBbsIndex_zero_pages :
    bbsCallError (sampleOps 0) { Brd := sampleBoard, Page := 0 } (BbsCall.setPageNo 0) =
        some 7 ∧
      generateBbsIndex (sampleOps 0) { Brd := sampleBoard, Page := 0 } =
        ([BbsCall.getArticleCount 3, BbsCall.setPageNo 0, BbsCall.getArticleList 3 (-20),
          BbsCall.getBottomList 3],
         .ok { Board := sampleBoard, IsValid := true, TotalPage := 0, Articles := [-20],
               Bottoms := [1000], HasPrevPage := false, PrevPage := 0,
               HasNextPage := false, NextPage := 0 }) :=
  ⟨rfl, rfl⟩

/-- C19. Collaborator failures abort and propagate unmodified: in
`generateBbsIndex`, with a pager that obeys the pager laws and a board index of
at least one page (so that the last page, to which line 46 pins a page 0
request, is a page `SetPageNo` accepts), and in `generateArticle`, whenever a
collaborator call that was made failed (`GetArticleCount`, `SetPageNo`,
`GetArticleList`, `GetBottomList`, `Select` in any mode, `Render`) the
generator returns exactly that error and no artifact, the failed call is the
last call made, and no call is made twice. -/
theorem collaborator_failures_propagate {π κ α ε ε2 : Type} (ops : BbsOps π κ α ε)
    (r : BbsIndexRequest) (ErrNotFound : ε2)
    (Select : SelectMethod → Int → Int → Except ε2 ArticlePart)
    (Render : Bool → List Byte → Except ε2 Rendered) :
    (PagerLaws ops →
      (∀ count, ops.GetArticleCount r.Brd.Bid = .ok count →
        1 ≤ ops.LastPageNo (ops.NewPaging EntryPerPage count)) →
      (generateBbsIndex ops r).1.Nodup ∧
      ∀ c ∈ (generateBbsIndex ops r).1, ∀ e, bbsCallError ops r c = some e →
        (generateBbsIndex ops r).2 = .error e ∧
        (generateBbsIndex ops r).1.getLast? = some c) ∧
    ((generateArticle ErrNotFound Select Render).1.Nodup ∧
      ∀ c ∈ (generateArticle ErrNotFound Select Render).1, ∀ e,
        articleCallError Select Render c = some e →
        (generateArticle ErrNotFound Select Render).2 = .error e ∧
        (generateArticle ErrNotFound Select Render).1.getLast? = some c) := by
  refine ⟨?_, generateArticle_failures ErrNotFound Select Render⟩
  intro hlaws hpages
  refine ⟨(generateBbsIndex_failures ops r).1, ?_⟩
  intro c hc e herr
  refine (generateBbsIndex_failures ops r).2 c hc e herr ?_
  intro h0 page hpage
  rw [hpage] at hc herr
  obtain ⟨count, hcount, hres⟩ := generateBbsIndex_setPageNo_mem ops r page hc
  have hlast : page = ops.LastPageNo (ops.NewPaging EntryPerPage count) := by
    rw [hres]
    unfold resolvedPage
    rw [if_pos h0]
  have hacc : (ops.SetPageNo (ops.NewPaging EntryPerPage count) page).2 = none := by
    rw [hlast]
    exact (hlaws.2 _ _).mpr ⟨hpages count hcount, le_refl _⟩
  simp only [bbsCallError, hcount, hacc] at herr
  cases herr

/-- C19, on a board of 45 articles (3 pages) with page 0 requested, and on the
`shortReadFetcher` article. -/
theorem collaborator_failures_propagate_witness :
    ((generateBbsIndex (sampleOps 45) { Brd := sampleBoard, Page := 0 }).1.Nodup ∧
      ∀ c ∈ (generateBbsIndex (sampleOps 45) { Brd := sampleBoard, Page := 0 }).1, ∀ e,
        bbsCallError (sampleOps 45) { Brd := sampleBoard, Page := 0 } c = some e →
        (generateBbsIndex (sampleOps 45) { Brd := sampleBoard, Page := 0 }).2 = .error e ∧
        (generateBbsIndex (sampleOps 45) { Brd := sampleBoard, Page := 0 }).1.getLast? =
          some c) ∧
    ((generateArticle () shortReadFetcher sampleRender).1.Nodup ∧
      ∀ c ∈ (generateArticle () shortReadFetcher sampleRender).1, ∀ e,
        articleCallError shortReadFetcher sampleRender c = some e →
        (generateArticle () shortReadFetcher sampleRender).2 = .error e ∧
        (generateArticle () shortReadFetcher sampleRender).1.getLast? = some c) :=
  ⟨(collaborator_failures_propagate (sampleOps 45) { Brd := sampleBoard, Page := 0 } ()
      shortReadFetcher sampleRender).1 (sampleOps_laws 45)
      (fun count hcount => by
        have h45 : count = 45 := by
          simp only [sampleOps] at hcount
          exact (Except.ok.inj hcount).symm
        rw [h45]
        decide),
    (collaborator_failures_propagate (sampleOps 45) { Brd := sampleBoard, Page := 0 } ()
      shortReadFetcher sampleRender).2⟩

/-- The loop of `handleImgur` appends one image Component per id, in order. -/
theorem imgurLoop_eq (ids : List (List Byte)) :
    ∀ comps : List Component,
      imgurLoop ids comps =
        comps ++ ids.map (fun id => MakeComponent (imageHtmlTag (imgurLink id))) := by
  induction ids with
  | nil => intro comps; simp [imgurLoop]
  | cons id ids ih =>
    intro comps
    simp [imgurLoop, ih]

/-- `strings.Split` never returns an empty list. -/
theorem stringsSplit_ne_nil (sep : Byte) (s : List Byte) : stringsSplit sep s ≠ [] := by
  cases s with
  | nil => simp [stringsSplit]
  | cons c cs =>
    unfold stringsSplit
    by_cases h : c = sep
    · simp [h]
    · rw [if_neg h]
      cases stringsSplit sep cs <;> simp

/-- `strings.Split` returns one piece more than there are separators. -/
theorem stringsSplit_length (sep : Byte) (s : List Byte) :
    (stringsSplit sep s).length = s.count sep + 1 := by
  induction s with
  | nil => simp [stringsSplit]
  | cons c cs ih =>
    unfold stringsSplit
    by_cases h : c = sep
    · rw [if_pos h, h]
      simp [ih]
    · rw [if_neg h]
      have hne := stringsSplit_ne_nil sep cs
      cases hs : stringsSplit sep cs with
      | nil => exact absurd hs hne
      | cons x xs =>
        rw [hs] at ih
        have hc : List.count sep (c :: cs) = List.count sep cs := by
          rw [List.count_cons]
          simp [h]
        rw [hc]
        simpa using ih

/-- The pieces of `strings.Split`, joined by the separator, are the text. -/
theorem stringsSplit_join (sep : Byte) (s : List Byte) :
    List.intercalate [sep] (stringsSplit sep s) = s := by
  induction s with
  | nil => simp [stringsSplit, List.intercalate]
  | cons c cs ih =>
    unfold stringsSplit
    by_cases h : c = sep
    · rw [if_pos h, h]
      have hne := stringsSplit_ne_nil sep cs
      cases hs : stringsSplit sep cs with
      | nil => exact absurd hs hne
      | cons x xs =>
        rw [hs] at ih
        rw [← ih]
        simp [List.intercalate, List.intersperse]
    · rw [if_neg h]
      have hne := stringsSplit_ne_nil sep cs
      cases hs : stringsSplit sep cs with
      | nil => exact absurd hs hne
      | cons x xs =>
        rw [hs] at ih
        rw [← ih]
        cases xs <;> simp [List.intercalate, List.intersperse]

/-- No piece of `strings.Split` holds the separator, and every byte of a piece
is a byte of the text. -/
theorem stringsSplit_pieces (sep : Byte) (s : List Byte) :
    ∀ piece ∈ stringsSplit sep s, ∀ b : Nat, b ∈ piece → b ≠ sep ∧ b ∈ s := by
  induction s with
  | nil =>
    intro piece hp b hb
    simp [stringsSplit] at hp
    rw [hp] at hb
    simp at hb
  | cons c cs ih =>
    intro piece hp b hb
    unfold stringsSplit at hp
    by_cases h : c = sep
    · rw [if_pos h] at hp
      rcases List.mem_cons.mp hp with hp | hp
      · rw [hp] at hb
        simp at hb
      · have := ih piece hp b hb
        exact ⟨this.1, List.mem_cons_of_mem _ this.2⟩
    · rw [if_neg h] at hp
      have hne := stringsSplit_ne_nil sep cs
      cases hs : stringsSplit sep cs with
      | nil => exact absurd hs hne
      | cons x xs =>
        rw [hs] at hp ih
        rcases List.mem_cons.mp hp with hp | hp
        · rw [hp] at hb
          rcases List.mem_cons.mp hb with hb | hb
          · rw [hb]
            exact ⟨h, List.mem_cons_self _ _⟩
          · have := ih x (List.mem_cons_self _ _) b hb
            exact ⟨this.1, List.mem_cons_of_mem _ this.2⟩
        · have := ih piece (List.mem_cons_of_mem _ hp) b hb
          exact ⟨this.1, List.mem_cons_of_mem _ this.2⟩

/-- The replacement of one byte is an entity or the byte itself. -/
theorem escapeByte_cases (b : Byte) :
    (∃ tail ∈ entityTails, escapeByte b = 38 :: tail) ∨
    (escapeByte b = [b] ∧ b ≠ 38 ∧ b ≠ 39 ∧ b ≠ 60 ∧ b ≠ 62 ∧ b ≠ 34) := by
  unfold escapeByte
  by_cases h1 : b = 38
  · left
    rw [if_pos h1]
    exact ⟨bytesOf "amp;", by simp [entityTails], by decide⟩
  · rw [if_neg h1]
    by_cases h2 : b = 39
    · left
      rw [if_pos h2]
      exact ⟨bytesOf "#39;", by simp [entityTails], by decide⟩
    · rw [if_neg h2]
      by_cases h3 : b = 60
      · left
        rw [if_pos h3]
        exact ⟨bytesOf "lt;", by simp [entityTails], by decide⟩
      · rw [if_neg h3]
        by_cases h4 : b = 62
        · left
          rw [if_pos h4]
          exact ⟨bytesOf "gt;", by simp [entityTails], by decide⟩
        · rw [if_neg h4]
          by_cases h5 : b = 34
          · left
            rw [if_pos h5]
            exact ⟨bytesOf "#34;", by simp [entityTails], by decide⟩
          · right
            rw [if_neg h5]
            exact ⟨rfl, h1, h2, h3, h4, h5⟩

/-- The bytes after the `&` of an entity are plain: none is `&`, a quote, `<`
or `>`. -/
theorem entityTails_plain :
    ∀ tail ∈ entityTails, ∀ x : Nat, x ∈ tail →
      x ≠ 38 ∧ x ≠ 34 ∧ x ≠ 39 ∧ x ≠ 60 ∧ x ≠ 62 := by
  decide

/-- The escaped text is attribute-safe. -/
theorem EscapeString_safe (s : List Byte) : AttributeSafe (EscapeString s) := by
  induction s with
  | nil =>
    constructor
    · intro b hb
      simp [EscapeString] at hb
    · intro pre suf h
      simp [EscapeString] at h
  | cons c cs ih =>
    obtain ⟨ih1, ih2⟩ := ih
    unfold EscapeString
    rcases escapeByte_cases c with ⟨tail, htail, hesc⟩ | ⟨hesc, h38, h39, h60, h62, h34⟩
    · rw [hesc]
      constructor
      · intro b hb
        rcases List.mem_append.mp hb with hb | hb
        · rcases List.mem_cons.mp hb with hb | hb
          · rw [hb]
            decide
          · have := entityTails_plain tail htail b hb
            exact ⟨this.2.1, this.2.2.1, this.2.2.2.1, this.2.2.2.2⟩
        · exact ih1 b hb
      · intro pre suf h
        cases pre with
        | nil =>
          simp only [List.nil_append, List.cons_append] at h
          exact ⟨tail, htail, EscapeString cs, ((List.cons.inj h).2).symm⟩
        | cons x pre =>
          simp only [List.cons_append] at h
          have h2 : tail ++ EscapeString cs = pre ++ 38 :: suf := (List.cons.inj h).2
          rcases List.append_eq_append_iff.mp h2 with ⟨t, hpre, ht⟩ | ⟨t, htl, ht⟩
          · exact ih2 t suf ht
          · cases t with
            | nil =>
              simp only [List.nil_append] at ht
              exact ih2 [] suf (by simpa using ht.symm)
            | cons y t =>
              have hy : y = 38 := by
                have h9 := (List.cons.inj ht).1
                first | exact h9 | exact h9.symm
              have hmem : (38 : Nat) ∈ tail := by
                rw [htl, hy]
                simp
              exact absurd rfl (entityTails_plain tail htail 38 hmem).1
    · rw [hesc]
      constructor
      · intro b hb
        rcases List.mem_append.mp hb with hb | hb
        · simp only [List.mem_singleton] at hb
          rw [hb]
          exact ⟨h34, h39, h60, h62⟩
        · exact ih1 b hb
      · intro pre suf h
        cases pre with
        | nil =>
          simp only [List.nil_append, List.singleton_append] at h
          exact absurd (List.cons.inj h).1 h38
        | cons x pre =>
          simp only [List.cons_append, List.singleton_append] at h
          exact ih2 pre suf (List.cons.inj h).2

/-- A text without `&`, quotes, `<` and `>` is left alone by the escaping. -/
theorem EscapeString_plain (s : List Byte)
    (h : ∀ b : Nat, b ∈ s → b ≠ 38 ∧ b ≠ 34 ∧ b ≠ 39 ∧ b ≠ 60 ∧ b ≠ 62) :
    EscapeString s = s := by
  induction s with
  | nil => rfl
  | cons c cs ih =>
    obtain ⟨h38, h34, h39, h60, h62⟩ := h c (List.mem_cons_self _ _)
    unfold EscapeString
    rw [ih (fun b hb => h b (List.mem_cons_of_mem _ hb))]
    simp [escapeByte, h38, h34, h39, h60, h62]

/-- Word bytes are none of `&`, the quotes, `<`, `>`. -/
theorem isWord_plain (b : Nat) (h : isWord b = true) :
    b ≠ 38 ∧ b ≠ 34 ∧ b ≠ 39 ∧ b ≠ 60 ∧ b ≠ 62 := by
  refine ⟨?_, ?_, ?_, ?_, ?_⟩ <;>
    (intro hb
     subst hb
     revert h
     decide)

/-- The image tag of a text is the escaped image tag of that text. -/
theorem imageHtmlTag_escaped (text : List Byte) :
    IsEscapedImageTag (MakeComponent (imageHtmlTag text)) text :=
  ⟨rfl, EscapeString_safe text⟩

/-- C12. Every image Component attribute-escapes its URL: for every URL and
match handed to them, each Component of the four image handlers is exactly
`<img src="E" alt="" />` with `E` the HTML-escaped form of the text being
embedded (capture group 1 for the same-scheme image, the link of one id for the
imgur gallery, the templated link for picmoe, the whole URL for the generic
image), and `E` holds no raw double quote, single quote, `<` or `>` and every
`&` in it starts an entity. -/
theorem image_components_escape_url {ε : Type} (urlBytes : List Byte) (m : MatchIndices) :
    (ValidGroup m urlBytes 1 →
      ∀ c ∈ componentsOf (@handleSameSchemeImage ε urlBytes m),
        IsEscapedImageTag c (ByteSliceOf m urlBytes 1)) ∧
    (ValidGroup m urlBytes 1 →
      ∀ c ∈ componentsOf (@handleImgur ε urlBytes m),
        ∃ id ∈ stringsSplit 44 (ByteSliceOf m urlBytes 1),
          IsEscapedImageTag c (imgurLink id)) ∧
    (ValidGroup m urlBytes 1 →
      ∀ c ∈ componentsOf (@handlePicmoe ε urlBytes m),
        IsEscapedImageTag c (picmoeLink (ByteSliceOf m urlBytes 1))) ∧
    (∀ c ∈ componentsOf (@handleGenericImage ε urlBytes m),
      IsEscapedImageTag c urlBytes) := by
  refine ⟨?_, ?_, ?_, ?_⟩
  · intro _ c hc
    simp only [handleSameSchemeImage, componentsOf, List.mem_singleton] at hc
    rw [hc]
    exact imageHtmlTag_escaped _
  · intro _ c hc
    simp only [handleImgur, componentsOf, imgurLoop_eq, List.nil_append, List.mem_map] at hc
    obtain ⟨id, hid, rfl⟩ := hc
    exact ⟨id, hid, imageHtmlTag_escaped _⟩
  · intro _ c hc
    simp only [handlePicmoe, componentsOf, List.mem_singleton] at hc
    rw [hc]
    exact imageHtmlTag_escaped _
  · intro c hc
    simp only [handleGenericImage, componentsOf, List.mem_singleton] at hc
    rw [hc]
    exact imageHtmlTag_escaped _

/-- C12, at the URL `http://imgur.com/a"b,c<d` with capture group 1 the bytes
`[17, 24)`. -/
theorem image_components_escape_url_witness :
    (ValidGroup [0, 24, 17, 24] (bytesOf "http://imgur.com/a\"b,c<d") 1 →
      ∀ c ∈ componentsOf
          (@handleSameSchemeImage Unit (bytesOf "http://imgur.com/a\"b,c<d") [0, 24, 17, 24]),
        IsEscapedImageTag c
          (ByteSliceOf [0, 24, 17, 24] (bytesOf "http://imgur.com/a\"b,c<d") 1)) ∧
    (ValidGroup [0, 24, 17, 24] (bytesOf "http://imgur.com/a\"b,c<d") 1 →
      ∀ c ∈ componentsOf
          (@handleImgur Unit (bytesOf "http://imgur.com/a\"b,c<d") [0, 24, 17, 24]),
        ∃ id ∈ stringsSplit 44
            (ByteSliceOf [0, 24, 17, 24] (bytesOf "http://imgur.com/a\"b,c<d") 1),
          IsEscapedImageTag c (imgurLink id)) ∧
    (ValidGroup [0, 24, 17, 24] (bytesOf "http://imgur.com/a\"b,c<d") 1 →
      ∀ c ∈ componentsOf
          (@handlePicmoe Unit (bytesOf "http://imgur.com/a\"b,c<d") [0, 24, 17, 24]),
        IsEscapedImageTag c
          (picmoeLink (ByteSliceOf [0, 24, 17, 24] (bytesOf "http://imgur.com/a\"b,c<d") 1))) ∧
    (∀ c ∈ componentsOf
        (@handleGenericImage Unit (bytesOf "http://imgur.com/a\"b,c<d") [0, 24, 17, 24]),
      IsEscapedImageTag c (bytesOf "http://imgur.com/a\"b,c<d")) :=
  image_components_escape_url (bytesOf "http://imgur.com/a\"b,c<d") [0, 24, 17, 24]

/-- The escaping at work: the handlers applied to a text with a double quote
and a `<` in capture group 1. -/
theorem image_components_escape_url_example :
    ValidGroup [0, 24, 17, 24] (bytesOf "http://imgur.com/a\"b,c<d") 1 ∧
      @handleSameSchemeImage Unit (bytesOf "http://imgur.com/a\"b,c<d") [0, 24, 17, 24] =
        .ok [MakeComponent (bytesOf "<img src=\"a&#34;b,c&lt;d\" alt=\"\" />")] ∧
      @handleImgur Unit (bytesOf "http://imgur.com/a\"b,c<d") [0, 24, 17, 24] =
        .ok [MakeComponent (bytesOf "<img src=\"//i.imgur.com/a&#34;b.jpg\" alt=\"\" />"),
             MakeComponent (bytesOf "<img src=\"//i.imgur.com/c&lt;d.jpg\" alt=\"\" />")] := by
  refine ⟨⟨17, 24, by decide, by decide, by decide, by decide, by decide⟩, ?_, ?_⟩
  · exact congrArg Except.ok (by decide)
  · exact congrArg Except.ok (by decide)

/-- A successful run of a class consumes one byte of the class. -/
theorem run_char (p : Byte → Bool) (pos : Nat) (rest : List Byte) (caps : Captures)
    (k : RegexCont) (r : Captures) (h : (Regex.char p).run pos rest caps k = some r) :
    ∃ c cs, rest = c :: cs ∧ p c = true ∧ k (pos + 1) cs caps = some r := by
  cases rest with
  | nil => simp [Regex.run] at h
  | cons c cs =>
    simp only [Regex.run] at h
    by_cases hp : p c = true
    · rw [if_pos hp] at h
      exact ⟨c, cs, rfl, hp, h⟩
    · rw [if_neg hp] at h
      cases h

/-- A successful run of a literal consumes that literal. -/
theorem run_lit (s : List Byte) :
    ∀ (pos : Nat) (rest : List Byte) (caps : Captures) (k : RegexCont) (r : Captures),
      (Regex.lit s).run pos rest caps k = some r →
      ∃ rest2, rest = s ++ rest2 ∧ k (pos + s.length) rest2 caps = some r := by
  induction s with
  | nil =>
    intro pos rest caps k r h
    exact ⟨rest, rfl, by simpa [Regex.lit, Regex.run] using h⟩
  | cons c cs ih =>
    intro pos rest caps k r h
    simp only [Regex.lit, Regex.run] at h
    cases rest with
    | nil => simp at h
    | cons d ds =>
      simp only at h
      by_cases hd : (d == c) = true
      · rw [if_pos hd] at h
        obtain ⟨rest2, hr, hk⟩ := ih (pos + 1) ds caps k r h
        refine ⟨rest2, ?_, ?_⟩
        · rw [hr]
          simp only [List.cons_append, List.cons.injEq, and_true]
          exact beq_iff_eq.mp hd
        · rw [← hk]
          congr 1
          simp only [List.length_cons]
          omega
      · rw [if_neg hd] at h
        cases h

/-- A successful greedy repetition of a class consumes some bytes of the
class and leaves the captures alone. -/
theorem starLoop_char (p : Byte → Bool) (caps : Captures) (k : RegexCont) (r : Captures) :
    ∀ (fuel pos : Nat) (rest : List Byte),
      starLoop (fun pos2 rest2 caps2 k2 => (Regex.char p).run pos2 rest2 caps2 k2)
        fuel pos rest caps k = some r →
      ∃ n, n ≤ rest.length ∧ (∀ b : Nat, b ∈ rest.take n → p b = true) ∧
        k (pos + n) (rest.drop n) caps = some r := by
  intro fuel
  induction fuel with
  | zero =>
    intro pos rest h
    exact ⟨0, Nat.zero_le _, by simp, by simpa [starLoop] using h⟩
  | succ fuel ih =>
    intro pos rest h
    simp only [starLoop] at h
    cases hs : (Regex.char p).run pos rest caps
        (fun pos2 rest2 caps2 =>
          if pos2 > pos then
            starLoop (fun pos2 rest2 caps2 k2 => (Regex.char p).run pos2 rest2 caps2 k2)
              fuel pos2 rest2 caps2 k
          else none) with
    | none =>
      rw [hs] at h
      exact ⟨0, Nat.zero_le _, by simp, by simpa using h⟩
    | some r2 =>
      rw [hs] at h
      have hr : r2 = r := Option.some.inj h
      rw [hr] at hs
      obtain ⟨c, cs, hrest, hp, hk⟩ := run_char p pos rest caps _ r hs
      rw [if_pos (Nat.lt_succ_self pos)] at hk
      obtain ⟨n, hn, hall, hk2⟩ := ih (pos + 1) cs hk
      refine ⟨n + 1, ?_, ?_, ?_⟩
      · rw [hrest]
        simp only [List.length_cons]
        omega
      · intro b hb
        rw [hrest] at hb
        simp only [List.take_succ_cons, List.mem_cons] at hb
        rcases hb with hb | hb
        · rw [hb]; exact hp
        · exact hall b hb
      · rw [hrest]
        simp only [List.drop_succ_cons]
        rw [← hk2]
        congr 1
        omega

/-- A successful run of an expression without group `i` reaches its
continuation with as many captures as before and group `i` unchanged. -/
theorem run_frame (i : Nat) (R : Regex) :
    R.hasGroup i = false →
    ∀ (pos : Nat) (rest : List Byte) (caps : Captures) (k : RegexCont) (r : Captures),
      R.run pos rest caps k = some r →
      ∃ pos2 rest2 caps2, k pos2 rest2 caps2 = some r ∧
        caps2.length = caps.length ∧ caps2[i]? = caps[i]? := by
  induction R with
  | empty =>
    intro _ pos rest caps k r h
    exact ⟨pos, rest, caps, by simpa [Regex.run] using h, rfl, rfl⟩
  | char p =>
    intro _ pos rest caps k r h
    obtain ⟨c, cs, _, _, hk⟩ := run_char p pos rest caps k r h
    exact ⟨pos + 1, cs, caps, hk, rfl, rfl⟩
  | seq a b iha ihb =>
    intro hg pos rest caps k r h
    simp only [Regex.hasGroup, Bool.or_eq_false_iff] at hg
    simp only [Regex.run] at h
    obtain ⟨pos2, rest2, caps2, hk, hl, hi⟩ := iha hg.1 pos rest caps _ r h
    obtain ⟨pos3, rest3, caps3, hk3, hl3, hi3⟩ := ihb hg.2 pos2 rest2 caps2 k r hk
    exact ⟨pos3, rest3, caps3, hk3, hl3.trans hl, hi3.trans hi⟩
  | alt a b iha ihb =>
    intro hg pos rest caps k r h
    simp only [Regex.hasGroup, Bool.or_eq_false_iff] at hg
    simp only [Regex.run] at h
    cases ha : a.run pos rest caps k with
    | none =>
      rw [ha] at h
      exact ihb hg.2 pos rest caps k r h
    | some r2 =>
      rw [ha] at h
      have hr : r2 = r := Option.some.inj h
      rw [hr] at ha
      exact iha hg.1 pos rest caps k r ha
  | star a iha =>
    intro hg pos rest caps k r h
    simp only [Regex.hasGroup] at hg
    simp only [Regex.run] at h
    have key : ∀ (fuel pos : Nat) (rest : List Byte) (caps : Captures),
        starLoop (fun pos2 rest2 caps2 k2 => a.run pos2 rest2 caps2 k2)
          fuel pos rest caps k = some r →
        ∃ pos2 rest2 caps2, k pos2 rest2 caps2 = some r ∧
          caps2.length = caps.length ∧ caps2[i]? = caps[i]? := by
      intro fuel
      induction fuel with
      | zero =>
        intro pos rest caps h
        exact ⟨pos, rest, caps, by simpa [starLoop] using h, rfl, rfl⟩
      | succ fuel ihf =>
        intro pos rest caps h
        simp only [starLoop] at h
        cases hs : a.run pos rest caps
            (fun pos2 rest2 caps2 =>
              if pos2 > pos then
                starLoop (fun pos2 rest2 caps2 k2 => a.run pos2 rest2 caps2 k2)
                  fuel pos2 rest2 caps2 k
              else none) with
        | none =>
          rw [hs] at h
          exact ⟨pos, rest, caps, by simpa using h, rfl, rfl⟩
        | some r2 =>
          rw [hs] at h
          have hr : r2 = r := Option.some.inj h
          rw [hr] at hs
          obtain ⟨pos2, rest2, caps2, hk, hl, hi⟩ := iha hg pos rest caps _ r hs
          by_cases hgt : pos2 > pos
          · rw [if_pos hgt] at hk
            obtain ⟨pos3, rest3, caps3, hk3, hl3, hi3⟩ := ihf pos2 rest2 caps2 hk
            exact ⟨pos3, rest3, caps3, hk3, hl3.trans hl, hi3.trans hi⟩
          · rw [if_neg hgt] at hk
            cases hk
    exact key _ pos rest caps h
  | group j a iha =>
    intro hg pos rest caps k r h
    simp only [Regex.hasGroup, Bool.or_eq_false_iff, beq_eq_false_iff_ne, ne_eq] at hg
    simp only [Regex.run] at h
    obtain ⟨pos2, rest2, caps2, hk, hl, hi⟩ := iha hg.2 pos rest caps _ r h
    refine ⟨pos2, rest2, caps2.set j ((pos : Int), (pos2 : Int)), hk, ?_, ?_⟩
    · rw [List.length_set, hl]
    · rw [List.getElem?_set_ne hg.1, hi]
  | bol =>
    intro _ pos rest caps k r h
    simp only [Regex.run] at h
    by_cases h0 : pos = 0
    · rw [if_pos h0] at h
      exact ⟨pos, rest, caps, h, rfl, rfl⟩
    · rw [if_neg h0] at h
      cases h
  | eol =>
    intro _ pos rest caps k r h
    simp only [Regex.run] at h
    by_cases h0 : rest.isEmpty = true
    · rw [if_pos h0] at h
      exact ⟨pos, rest, caps, h, rfl, rfl⟩
    · rw [if_neg h0] at h
      cases h

/-- The run of a sequence. -/
theorem run_seq (a b : Regex) (pos : Nat) (rest : List Byte) (caps : Captures) (k : RegexCont) :
    (Regex.seq a b).run pos rest caps k =
      a.run pos rest caps (fun pos2 rest2 caps2 => b.run pos2 rest2 caps2 k) := by
  rw [Regex.run]

/-- A successful run of an alternation is a successful run of a branch. -/
theorem run_alt (a b : Regex) (pos : Nat) (rest : List Byte) (caps : Captures) (k : RegexCont)
    (r : Captures) (h : (Regex.alt a b).run pos rest caps k = some r) :
    a.run pos rest caps k = some r ∨ b.run pos rest caps k = some r := by
  rw [Regex.run] at h
  cases ha : a.run pos rest caps k with
  | none =>
    rw [ha] at h
    exact Or.inr h
  | some r2 =>
    rw [ha] at h
    exact Or.inl h

/-- The part of pattern 3 from `://imgur\.com/` on: a successful run splits
the text into that literal, a non-empty run of id bytes and a tail, and
records the id bytes as group 1. -/
theorem imgur_ids_shape (pos : Nat) (rest : List Byte) (caps r : Captures)
    (hlen : caps.length = 3)
    (h : (Regex.seqs [Regex.lit (bytesOf "://imgur.com/"),
        .group 1 (Regex.plus (.char (fun b => b == 44 || isWord b))),
        Regex.opt (.seq (Regex.lit (bytesOf "#")) (.group 2 (Regex.plus (.char isDigit)))),
        .star (.char (fun b => b != 47)),
        .eol]).run pos rest caps (acceptAt 0) = some r) :
    ∃ ids tail, rest = bytesOf "://imgur.com/" ++ ids ++ tail ∧ ids ≠ [] ∧
      (∀ b : Nat, b ∈ ids → (b == 44 || isWord b) = true) ∧
      r.length = 3 ∧
      r[1]? = some (((pos + 13 : Nat) : Int), ((pos + 13 + ids.length : Nat) : Int)) := by
  have hseqs : Regex.seqs [Regex.lit (bytesOf "://imgur.com/"),
        .group 1 (Regex.plus (.char (fun b => b == 44 || isWord b))),
        Regex.opt (.seq (Regex.lit (bytesOf "#")) (.group 2 (Regex.plus (.char isDigit)))),
        .star (.char (fun b => b != 47)),
        .eol] =
      .seq (Regex.lit (bytesOf "://imgur.com/"))
        (.seq (.group 1 (.seq (.char (fun b => b == 44 || isWord b))
            (.star (.char (fun b => b == 44 || isWord b)))))
          imgurRegexAfterIds) := rfl
  rw [hseqs, run_seq] at h
  obtain ⟨rest3, hrest, h1⟩ := run_lit _ pos rest caps _ r h
  have hl13 : (bytesOf "://imgur.com/").length = 13 := by decide
  rw [hl13] at h1
  rw [run_seq, Regex.run, run_seq] at h1
  obtain ⟨c, cs, hc, hpc, h2⟩ := run_char _ (pos + 13) rest3 caps _ r h1
  rw [Regex.run] at h2
  obtain ⟨n, hn, hall, h3⟩ := starLoop_char _ caps _ r _ _ _ h2
  obtain ⟨pos4, rest4, caps4, hk, hl4, hi4⟩ := run_frame 1 imgurRegexAfterIds (by decide)
    _ _ _ _ r h3
  have hr : r = caps4.set 0 ((0 : Nat), (pos4 : Int)) := by
    simp only [acceptAt] at hk
    exact (Option.some.inj hk).symm
  refine ⟨c :: cs.take n, cs.drop n, ?_, by simp, ?_, ?_, ?_⟩
  · rw [hrest, hc]
    simp
  · intro b hb
    rcases List.mem_cons.mp hb with hb | hb
    · rw [hb]; exact hpc
    · exact hall b hb
  · rw [hr, List.length_set, hl4, List.length_set, hlen]
  · have hlt : 1 < caps.length := by omega
    rw [hr, List.getElem?_set_ne (by decide), hi4, List.getElem?_set_self hlt]
    simp only [List.length_cons, List.length_take, Nat.min_eq_left hn]
    congr 2
    push_cast
    omega

/-- Pattern 3 is anchored: it has no match that starts after offset 0. -/
theorem imgurRegex_run_nonzero (pos : Nat) (hpos : pos ≠ 0) (rest : List Byte)
    (caps : Captures) (k : RegexCont) : imgurRegex.run pos rest caps k = none := by
  have hd : imgurRegex = .seq .bol (Regex.seqs [Regex.lit (bytesOf "http"),
      Regex.opt (Regex.lit (bytesOf "s")), Regex.lit (bytesOf "://imgur.com/"),
      .group 1 (Regex.plus (.char (fun b => b == 44 || isWord b))),
      Regex.opt (.seq (Regex.lit (bytesOf "#")) (.group 2 (Regex.plus (.char isDigit)))),
      .star (.char (fun b => b != 47)), .eol]) := rfl
  rw [hd, run_seq, Regex.run, if_neg hpos]

/-- The search for pattern 3 finds nothing from an offset after 0. -/
theorem findFrom_imgurRegex_nonzero (rest : List Byte) :
    ∀ pos : Nat, pos ≠ 0 → findFrom imgurRegex 2 pos rest = none := by
  induction rest with
  | nil =>
    intro pos hpos
    simp only [findFrom, imgurRegex_run_nonzero pos hpos]
  | cons c cs ih =>
    intro pos hpos
    simp only [findFrom, imgurRegex_run_nonzero pos hpos]
    exact ih (pos + 1) (Nat.succ_ne_zero pos)

/-- A match of pattern 3 is a run from offset 0. -/
theorem imgurRegex_match_run (url : List Byte) (m : MatchIndices)
    (h : FindSubmatchIndex imgurRegex 2 url = some m) :
    ∃ r, imgurRegex.run 0 url (List.replicate 3 (-1, -1)) (acceptAt 0) = some r ∧
      m = flattenCaptures r := by
  unfold FindSubmatchIndex at h
  have hacc : (fun (pos2 : Nat) (_ : List Byte) (caps : Captures) =>
      some (caps.set 0 (((0 : Nat) : Int), (pos2 : Int)))) = acceptAt 0 := rfl
  cases url with
  | nil =>
    simp only [findFrom] at h
    rw [hacc] at h
    cases hr : imgurRegex.run 0 [] (List.replicate (2 + 1) (-1, -1)) (acceptAt 0) with
    | none =>
      rw [hr] at h
      cases h
    | some r =>
      rw [hr] at h
      exact ⟨r, rfl, (Option.some.inj h).symm⟩
  | cons c cs =>
    simp only [findFrom] at h
    rw [hacc] at h
    cases hr : imgurRegex.run 0 (c :: cs) (List.replicate (2 + 1) (-1, -1)) (acceptAt 0) with
    | none =>
      rw [hr] at h
      simp only [findFrom_imgurRegex_nonzero cs (0 + 1) (by decide)] at h
      cases h
    | some r =>
      rw [hr] at h
      exact ⟨r, rfl, (Option.some.inj h).symm⟩

/-- What a match of pattern 3 looks like: the URL is `http://imgur.com/` or
`https://imgur.com/`, then a non-empty run of id bytes (commas and word
bytes), which is capture group 1, then a tail. -/
theorem imgurRegex_match_shape (url : List Byte) (m : MatchIndices)
    (h : FindSubmatchIndex imgurRegex 2 url = some m) :
    ∃ pfx ids tail, url = pfx ++ ids ++ tail ∧
      (pfx = bytesOf "http://imgur.com/" ∨ pfx = bytesOf "https://imgur.com/") ∧
      ids ≠ [] ∧
      (∀ b : Nat, b ∈ ids → (b == 44 || isWord b) = true) ∧
      ByteSliceOf m url 1 = ids ∧
      ValidGroup m url 1 := by
  obtain ⟨r, hrun, hm⟩ := imgurRegex_match_run url m h
  have hd : imgurRegex = .seq .bol (.seq (Regex.lit (bytesOf "http"))
      (.seq (.alt (Regex.lit (bytesOf "s")) .empty)
        (Regex.seqs [Regex.lit (bytesOf "://imgur.com/"),
          .group 1 (Regex.plus (.char (fun b => b == 44 || isWord b))),
          Regex.opt (.seq (Regex.lit (bytesOf "#")) (.group 2 (Regex.plus (.char isDigit)))),
          .star (.char (fun b => b != 47)), .eol]))) := rfl
  rw [hd, run_seq, Regex.run, if_pos rfl, run_seq] at hrun
  obtain ⟨rest1, hurl, h1⟩ := run_lit _ 0 url _ _ r hrun
  have hl4 : (bytesOf "http").length = 4 := by decide
  rw [hl4, run_seq] at h1
  have key : ∀ (pfx ids tail : List Byte) (pos : Nat), url = pfx ++ ids ++ tail →
      pos = pfx.length →
      r.length = 3 → r[1]? = some (((pos : Nat) : Int), ((pos + ids.length : Nat) : Int)) →
      ByteSliceOf m url 1 = ids ∧ ValidGroup m url 1 := by
    intro pfx ids tail pos hu hpos hlen hr1
    obtain ⟨a, b, c, hr⟩ := List.length_eq_three.mp hlen
    rw [hr] at hr1
    have hb : b = (((pos : Nat) : Int), ((pos + ids.length : Nat) : Int)) := by
      simpa using hr1
    have hmm : m = [a.1, a.2, (pos : Int), ((pos + ids.length : Nat) : Int), c.1, c.2] := by
      rw [hm, hr, hb]
      rfl
    constructor
    · rw [hmm, hu, hpos]
      simp [ByteSliceOf, urlBytesAt]
    · refine ⟨(pos : Int), ((pos + ids.length : Nat) : Int), by rw [hmm]; rfl, by rw [hmm]; rfl,
        by omega, by omega, ?_⟩
      rw [hu, hpos]
      simp only [List.length_append]
      omega
  rcases run_alt _ _ _ _ _ _ r h1 with h2 | h2
  · obtain ⟨rest2, hrest1, h3⟩ := run_lit _ (0 + 4) rest1 _ _ r h2
    have hl1 : (bytesOf "s").length = 1 := by decide
    rw [hl1] at h3
    obtain ⟨ids, tail, hrest2, hne, hall, hlen, hr1⟩ :=
      imgur_ids_shape (0 + 4 + 1) rest2 _ r (by simp) h3
    have hu : url = bytesOf "https://imgur.com/" ++ ids ++ tail := by
      rw [hurl, hrest1, hrest2]
      have : bytesOf "https://imgur.com/" =
          bytesOf "http" ++ (bytesOf "s" ++ bytesOf "://imgur.com/") := by decide
      rw [this]
      simp
    obtain ⟨hs, hv⟩ := key (bytesOf "https://imgur.com/") ids tail 18 hu (by decide) hlen
      (by simpa using hr1)
    exact ⟨_, ids, tail, hu, Or.inr rfl, hne, hall, hs, hv⟩
  · rw [Regex.run] at h2
    obtain ⟨ids, tail, hrest2, hne, hall, hlen, hr1⟩ :=
      imgur_ids_shape (0 + 4) rest1 _ r (by simp) h2
    have hu : url = bytesOf "http://imgur.com/" ++ ids ++ tail := by
      rw [hurl, hrest2]
      have : bytesOf "http://imgur.com/" = bytesOf "http" ++ bytesOf "://imgur.com/" := by
        decide
      rw [this]
      simp
    obtain ⟨hs, hv⟩ := key (bytesOf "http://imgur.com/") ids tail 17 hu (by decide) hlen
      (by simpa using hr1)
    exact ⟨_, ids, tail, hu, Or.inl rfl, hne, hall, hs, hv⟩

/-- The image tag of the link of an id made of word bytes needs no
escaping. -/
theorem imageHtmlTag_imgurLink_plain (id : List Byte)
    (hid : ∀ b : Nat, b ∈ id → isWord b = true) :
    imageHtmlTag (imgurLink id) =
      bytesOf "<img src=" ++ [34] ++ bytesOf "//i.imgur.com/" ++ id ++ bytesOf ".jpg" ++
        [34] ++ bytesOf " alt=" ++ [34, 34] ++ bytesOf " />" := by
  have hplain : EscapeString (imgurLink id) = imgurLink id := by
    apply EscapeString_plain
    intro b hb
    unfold imgurLink at hb
    have h1 : ∀ x : Nat, x ∈ bytesOf "//i.imgur.com/" →
        x ≠ 38 ∧ x ≠ 34 ∧ x ≠ 39 ∧ x ≠ 60 ∧ x ≠ 62 := by decide
    have h2 : ∀ x : Nat, x ∈ bytesOf ".jpg" →
        x ≠ 38 ∧ x ≠ 34 ∧ x ≠ 39 ∧ x ≠ 60 ∧ x ≠ 62 := by decide
    rcases List.mem_append.mp hb with hb | hb
    · rcases List.mem_append.mp hb with hb | hb
      · exact h1 b hb
      · exact isWord_plain b (hid b hb)
    · exact h2 b hb
  unfold imageHtmlTag
  rw [hplain]
  simp [imgurLink]

/-- C11. Imgur gallery rule: for every URL that `FindUrl` dispatches to the
gallery pattern (the third of `defaultUrlPatterns`), the span's Components are
exactly one image Component per comma-separated id of capture group 1, in
left-to-right order, the one for an id being the tag
`<img src="//i.imgur.com/<id>.jpg" alt="" />`; their number is the number of
commas in the group plus one, and the ids are made of word bytes. -/
theorem imgur_gallery_components {ε : Type} (FindAllUrlsIndex : List Byte → List (Int × Int))
    (input : List Byte) (n : Nat) (u : Int × Int) (p : UrlPattern ε) (m : MatchIndices)
    (hvalid : ValidRanges input (FindAllUrlsIndex input))
    (hu : (FindAllUrlsIndex input)[n]? = some u)
    (hfirst : FirstMatch (@defaultUrlPatterns ε) (urlBytesAt input u) 2 p m) :
    ∃ res rc ids, FindUrl FindAllUrlsIndex (@defaultUrlPatterns ε) input = some res ∧
      res.rcs[n]? = some rc ∧
      ids = stringsSplit 44 (ByteSliceOf m (urlBytesAt input u) 1) ∧
      List.intercalate [44] ids = ByteSliceOf m (urlBytesAt input u) 1 ∧
      (∀ id ∈ ids, ∀ b : Nat, b ∈ id → isWord b = true) ∧
      rc.Components = ids.map (fun id => MakeComponent
        (bytesOf "<img src=" ++ [34] ++ bytesOf "//i.imgur.com/" ++ id ++ bytesOf ".jpg" ++
          [34] ++ bytesOf " alt=" ++ [34, 34] ++ bytesOf " />")) ∧
      rc.Components.length = (ByteSliceOf m (urlBytesAt input u) 1).count 44 + 1 := by
  have hp : p = newUrlPattern imgurRegex 2 handleImgur := by
    have h1 := hfirst.1
    simp only [defaultUrlPatterns] at h1
    exact (Option.some.inj h1).symm
  have hmatch : FindSubmatchIndex imgurRegex 2 (urlBytesAt input u) = some m := by
    have h2 := hfirst.2.1
    rw [hp] at h2
    exact h2
  obtain ⟨pfx, ids0, tail, _, _, _, hclass, hslice, _⟩ :=
    imgurRegex_match_shape (urlBytesAt input u) m hmatch
  have hword : ∀ id ∈ stringsSplit 44 (ByteSliceOf m (urlBytesAt input u) 1),
      ∀ b : Nat, b ∈ id → isWord b = true := by
    intro id hid b hb
    obtain ⟨hne, hmem⟩ := stringsSplit_pieces 44 _ id hid b hb
    rw [hslice] at hmem
    have hc := hclass b hmem
    simp only [Bool.or_eq_true, beq_iff_eq] at hc
    rcases hc with hc | hc
    · exact absurd hc hne
    · exact hc
  have hdisp := dispatchFrom_first_match (urlBytesAt input u) (@defaultUrlPatterns ε) 0 2 p m
    hfirst
  have hcomp : (spanOf (@defaultUrlPatterns ε) input u).Components =
      (stringsSplit 44 (ByteSliceOf m (urlBytesAt input u) 1)).map
        (fun id => MakeComponent (imageHtmlTag (imgurLink id))) := by
    simp only [spanOf, MakeRichContent, dispatchUrl, hdisp, hp, newUrlPattern, handleImgur,
      componentsOf, imgurLoop_eq, List.nil_append]
  have hcomp2 : (spanOf (@defaultUrlPatterns ε) input u).Components =
      (stringsSplit 44 (ByteSliceOf m (urlBytesAt input u) 1)).map (fun id => MakeComponent
        (bytesOf "<img src=" ++ [34] ++ bytesOf "//i.imgur.com/" ++ id ++ bytesOf ".jpg" ++
          [34] ++ bytesOf " alt=" ++ [34, 34] ++ bytesOf " />")) := by
    rw [hcomp]
    apply List.map_congr_left
    intro id hid
    rw [imageHtmlTag_imgurLink_plain id (hword id hid)]
  refine ⟨_, spanOf (@defaultUrlPatterns ε) input u, _,
    FindUrl_eq FindAllUrlsIndex (@defaultUrlPatterns ε) input hvalid, ?_, rfl,
    stringsSplit_join 44 _, hword, hcomp2, ?_⟩
  · simp [List.getElem?_map, hu]
  · rw [hcomp2, List.length_map, stringsSplit_length]

/-- C11, at the text `http://imgur.com/a1,b2`: two image Components, for
`a1` then `b2`. -/
theorem imgur_gallery_components_witness :
    ∃ res rc ids, FindUrl wholeInputFinder (@defaultUrlPatterns Unit)
        (bytesOf "http://imgur.com/a1,b2") = some res ∧
      res.rcs[0]? = some rc ∧
      ids = stringsSplit 44 (ByteSliceOf [0, 22, 17, 22, -1, -1]
        (urlBytesAt (bytesOf "http://imgur.com/a1,b2") (0, 22)) 1) ∧
      List.intercalate [44] ids = ByteSliceOf [0, 22, 17, 22, -1, -1]
        (urlBytesAt (bytesOf "http://imgur.com/a1,b2") (0, 22)) 1 ∧
      (∀ id ∈ ids, ∀ b : Nat, b ∈ id → isWord b = true) ∧
      rc.Components = ids.map (fun id => MakeComponent
        (bytesOf "<img src=" ++ [34] ++ bytesOf "//i.imgur.com/" ++ id ++ bytesOf ".jpg" ++
          [34] ++ bytesOf " alt=" ++ [34, 34] ++ bytesOf " />")) ∧
      rc.Components.length = (ByteSliceOf [0, 22, 17, 22, -1, -1]
        (urlBytesAt (bytesOf "http://imgur.com/a1,b2") (0, 22)) 1).count 44 + 1 :=
  imgur_gallery_components wholeInputFinder (bytesOf "http://imgur.com/a1,b2") 0 (0, 22)
    (newUrlPattern imgurRegex 2 handleImgur) [0, 22, 17, 22, -1, -1]
    (by
      intro v hv
      simp only [wholeInputFinder, List.mem_singleton] at hv
      rw [hv]
      decide)
    (by decide)
    ⟨rfl, by decide, by
      intro i q hi hq
      have hi2 : i = 0 ∨ i = 1 := by omega
      rcases hi2 with hi2 | hi2
      · subst hi2
        have hq2 : q = newUrlPattern youtubeRegex 1 handleYoutube := by
          simp only [defaultUrlPatterns] at hq
          exact (Option.some.inj hq).symm
        rw [hq2]
        decide
      · subst hi2
        have hq2 : q = newUrlPattern sameSchemeImageRegex 1 handleSameSchemeImage := by
          simp only [defaultUrlPatterns] at hq
          exact (Option.some.inj hq).symm
        rw [hq2]
        decide⟩

/-- Scanning `http://imgur.com/a1,b2` gives one span with the two image
Components for `a1` and `b2`, in this order, through the third pattern. -/
theorem imgur_gallery_example :
    (FindUrl wholeInputFinder (@defaultUrlPatterns Unit)
        (bytesOf "http://imgur.com/a1,b2")).map (fun r => (r.rcs, r.err, r.handlerCalls)) =
      some ([MakeRichContent 0 22 (bytesOf "http://imgur.com/a1,b2")
          [MakeComponent (bytesOf "<img src=\"//i.imgur.com/a1.jpg\" alt=\"\" />"),
           MakeComponent (bytesOf "<img src=\"//i.imgur.com/b2.jpg\" alt=\"\" />")]],
        none, [[2]]) := by
  decide

end Pttweb
